import Mathlib

set_option maxRecDepth 2000000
set_option maxHeartbeats 2000000

/-!
Verification development for the request-classification and cost-control
subsystem of the stihl-agent-ui repository (`src/api/agent/...`): the skill
router (`skills/router.py`, `skills/base_skill.py` and the eight concrete
skills), the exact and semantic caches (`optimizations/cache.py`), the result
truncator (`optimizations/truncation.py`) and the conversation history manager
(`optimizations/history.py`).

Modelling conventions (shallow embedding of the Python code):
* Python strings are `List Char` (`PyStr`); `str.lower`, `str.strip`,
  slicing and `re.findall(r"\w+", ...)` are embedded directly.
* Python `float` arithmetic is idealised as exact arithmetic: confidence
  scores are `ℚ`, timestamps are `ℚ`, embedding coordinates and cosine
  similarities are `ℝ`.  None of the verified properties depends on
  floating-point rounding (all realised comparisons are strict enough that
  the idealisation preserves their outcome).
* `hashlib.md5` keys are modelled as the normalised query itself (the hash
  is injective in the model; no verified property depends on collisions).
* The subset of Python's `re` syntax used by the skill triggers (literals,
  `.`, classes, `\b \s \w \d`, `^ $`, `( )`, `(?! )`, `| * + ?` and bounded
  repetition) is given an executable semantics: `endsAt` computes the set of
  end positions of a match of a regex at a given start position, and
  `reSearch` scans all start positions like `re.search`.
-/

namespace StihlAgent

/-- Python strings, modelled as lists of characters. -/
abbrev PyStr := List Char

/-- Python's `str.lower()` (ASCII case folding, which covers every string the
code manipulates). -/
def pyLower (s : PyStr) : PyStr := s.map Char.toLower

/-- Characters matched by the regex class `\w` (ASCII range, which covers the
queries and patterns of this code base). -/
def isWordChar (c : Char) : Bool := c.isAlpha || c.isDigit || c = '_'

/-- Characters matched by the regex class `\s` and stripped by `str.strip()`. -/
def isSpaceChar (c : Char) : Bool :=
  c = ' ' || c = '\t' || c = '\n' || c = '\r' || c = '\x0b' || c = '\x0c'

/-- Python's `str.strip()`: drop leading and trailing whitespace. -/
def pyStrip (s : PyStr) : PyStr :=
  ((s.dropWhile isSpaceChar).reverse.dropWhile isSpaceChar).reverse

/-- Python slicing `s[:n]` for a possibly negative `n` (a negative bound
counts from the end of the string; the result is clipped at the ends). -/
def pySliceTo (s : PyStr) (n : Int) : PyStr :=
  if 0 ≤ n then s.take n.toNat else s.take (s.length - (-n).toNat)

/-- Accumulator pass of `re.findall(r"\w+", s)`: maximal runs of word
characters, scanned left to right (`acc` holds the current run, reversed). -/
def wordTokensAux : PyStr → PyStr → List PyStr
  | [], acc => if acc.isEmpty then [] else [acc.reverse]
  | c :: t, acc =>
    if isWordChar c then wordTokensAux t (c :: acc)
    else if acc.isEmpty then wordTokensAux t []
    else acc.reverse :: wordTokensAux t []

/-- `re.findall(r"\w+", s)`: the word tokens of `s` in order. -/
def wordTokens (s : PyStr) : List PyStr := wordTokensAux s []

/-! ## A semantics for the regex subset used by the skill triggers -/

/-- Abstract syntax of the regex subset appearing in the skills' trigger
lists.  `cls` is a character class given by a list of inclusive ranges
(a singleton range is a single character); `pw`/`ps`/`pd` are `\w`/`\s`/`\d`;
`wordB` is `\b`; `bol`/`eol` are `^`/`$`; `look true r` is the negative
lookahead `(?!r)`. -/
inductive RE where
  | eps
  | lit (c : Char)
  | any
  | cls (ranges : List (Char × Char))
  | pw | ps | pd
  | wordB
  | bol | eol
  | alt (a b : RE)
  | seq (a b : RE)
  | star (r : RE)
  | opt (r : RE)
  | look (neg : Bool) (r : RE)
deriving Repr, DecidableEq

/-- Case-insensitive character comparison (`re.IGNORECASE`, ASCII). -/
def charMatch (p c : Char) : Bool := p.toLower = c.toLower

/-- Membership of a character in a class given as ranges (case-insensitive
matching is immaterial here: the classes used by the triggers are digits and
a literal hyphen). -/
def inRanges (ranges : List (Char × Char)) (c : Char) : Bool :=
  ranges.any (fun r => r.1 ≤ c && c ≤ r.2)

/-- Whether position `i` of `s` (0-based) holds a word character;
out-of-range positions count as non-word. -/
def isWordAt (s : PyStr) (i : Nat) : Bool :=
  match s.get? i with
  | some c => isWordChar c
  | none => false

/-- Word-boundary test of `\b` at position `i`: the "previous character is a
word character" flag differs from the "current character is a word character"
flag. -/
def atWordBoundary (s : PyStr) (i : Nat) : Bool :=
  (if i = 0 then false else isWordAt s (i - 1)) != isWordAt s i

/-- Remove duplicates keeping first occurrences (`seen` accumulates the
elements already emitted).  Plain structural recursion so that the kernel can
evaluate it. -/
def dedupAux [DecidableEq α] : List α → List α → List α
  | [], _ => []
  | x :: t, seen => if x ∈ seen then dedupAux t seen else x :: dedupAux t (x :: seen)

/-- Remove duplicates keeping first occurrences.  Used only to keep the
position lists of the matcher small; all consumers treat those lists as
sets. -/
def dedupKF [DecidableEq α] (l : List α) : List α := dedupAux l []

/-- A crude structural size of a regex, used only to provision matcher
fuel. -/
def sizeRE : RE → Nat
  | .alt a b => sizeRE a + sizeRE b + 1
  | .seq a b => sizeRE a + sizeRE b + 1
  | .star r => sizeRE r + 1
  | .opt r => sizeRE r + 1
  | .look _ r => sizeRE r + 1
  | _ => 1

/-- End positions of a match of `r` starting at position `i` of `s`,
`re.search`-style semantics: `.` matches any character except a newline;
anchors and boundaries consume nothing; `r*` takes the empty iteration plus
any sequence of input-consuming iterations (an iteration of a nullable body
that consumes nothing cannot contribute a new end position, so the
progress-only unfolding is exact).  `fuel` bounds the recursion depth; it is
structurally decreasing so that kernel reduction works, and
`endsAtFuel r s` below provisions more than the matcher can consume (the
depth is at most the regex size plus one fuel unit per consumed character
for each star unfolding). -/
def endsAt (s : PyStr) : Nat → RE → Nat → List Nat
  | 0, _, _ => []
  | _ + 1, .eps, i => [i]
  | _ + 1, .lit c, i =>
    match s.get? i with
    | some c2 => if charMatch c c2 then [i + 1] else []
    | none => []
  | _ + 1, .any, i =>
    match s.get? i with
    | some c2 => if c2 = '\n' then [] else [i + 1]
    | none => []
  | _ + 1, .cls ranges, i =>
    match s.get? i with
    | some c2 => if inRanges ranges c2 then [i + 1] else []
    | none => []
  | _ + 1, .pw, i =>
    match s.get? i with
    | some c2 => if isWordChar c2 then [i + 1] else []
    | none => []
  | _ + 1, .ps, i =>
    match s.get? i with
    | some c2 => if isSpaceChar c2 then [i + 1] else []
    | none => []
  | _ + 1, .pd, i =>
    match s.get? i with
    | some c2 => if c2.isDigit then [i + 1] else []
    | none => []
  | _ + 1, .wordB, i => if atWordBoundary s i then [i] else []
  | _ + 1, .bol, i => if i = 0 then [i] else []
  | _ + 1, .eol, i => if i = s.length then [i] else []
  | fuel + 1, .alt a b, i => dedupKF (endsAt s fuel a i ++ endsAt s fuel b i)
  | fuel + 1, .seq a b, i =>
    dedupKF ((endsAt s fuel a i).flatMap (fun j => endsAt s fuel b j))
  | fuel + 1, .star r, i =>
    i :: dedupKF (((endsAt s fuel r i).filter (fun j => i < j)).flatMap
      (fun j => endsAt s fuel (.star r) j))
  | fuel + 1, .opt r, i => dedupKF (i :: endsAt s fuel r i)
  | fuel + 1, .look neg r, i =>
    if (endsAt s fuel r i).isEmpty = neg then [i] else []

/-- Fuel sufficient for `endsAt` on `s`: one unit per regex node plus one per
star unfolding, which consumes at least one input character each. -/
def endsAtFuel (r : RE) (s : PyStr) : Nat :=
  (s.length + 2) * (sizeRE r + 2)

/-- `re.search(r, s) is not None`: some start position admits a match. -/
def reSearchRE (r : RE) (s : PyStr) : Bool :=
  (List.range (s.length + 1)).any
    (fun i => !(endsAt s (endsAtFuel r s) r i).isEmpty)

/-! ### Parsing the trigger pattern strings into `RE`

A recursive-descent parser for the regex subset used in the repository
(`fuel` bounds the recursion depth; the entry point supplies more fuel than
any pattern needs, and the parser returns `none` on syntax it does not know,
which never happens for the patterns of this repository — witnessed by the
concrete evaluations below). -/

/-- Parse a `\x` escape at position `i` (the backslash already consumed). -/
def parseEscape (p : PyStr) (i : Nat) : Option (RE × Nat) :=
  match p.get? i with
  | some 'b' => some (.wordB, i + 1)
  | some 'w' => some (.pw, i + 1)
  | some 's' => some (.ps, i + 1)
  | some 'd' => some (.pd, i + 1)
  | some c =>
    if c.isAlpha || c.isDigit then none  -- unknown escape class: reject
    else some (.lit c, i + 1)            -- escaped punctuation, e.g. `\.`
  | none => none

/-- Parse the items of a character class up to the closing `]`; a leading
`-` is a literal hyphen, `a-b` is a range. -/
def parseClassItems (p : PyStr) : Nat → Nat → Option (List (Char × Char) × Nat)
  | 0, _ => none
  | fuel + 1, i =>
    match p.get? i with
    | none => none
    | some ']' => some ([], i + 1)
    | some c =>
      if c = '\\' then none  -- escapes inside classes: not used by the triggers
      else
        match p.get? (i + 1), p.get? (i + 2) with
        | some '-', some d =>
          if d = ']' then
            -- trailing hyphen is a literal: `c` then `-`
            match parseClassItems p fuel (i + 2) with
            | some (items, j) => some ((c, c) :: ('-', '-') :: items, j)
            | none => none
          else
            match parseClassItems p fuel (i + 3) with
            | some (items, j) => some ((c, d) :: items, j)
            | none => none
        | _, _ =>
          match parseClassItems p fuel (i + 1) with
          | some (items, j) => some ((c, c) :: items, j)
          | none => none

/-- Chain `n` copies of `r` in sequence in front of `tail`. -/
def reRepeat (r : RE) : Nat → RE → RE
  | 0, tail => tail
  | n + 1, tail => .seq r (reRepeat r n tail)

/-- Parse decimal digits starting at `i`, returning the value and the next
position (`none` when there is no digit). -/
def parseDigits (p : PyStr) : Nat → Nat → Nat → Option (Nat × Nat)
  | 0, _, _ => none
  | fuel + 1, i, acc =>
    match p.get? i with
    | some c =>
      if c.isDigit then
        match parseDigits p fuel (i + 1) (acc * 10 + (c.toNat - '0'.toNat)) with
        | some r => some r
        | none => some (acc * 10 + (c.toNat - '0'.toNat), i + 1)
      else none
    | none => none

/-- Apply a postfix quantifier (`*`, `+`, `?`, `\x7bm\x7d` or `\x7bm,n\x7d`)
to the atom `a`, if one is present at position `i`. -/
def parsePostfix (p : PyStr) (a : RE) (i : Nat) : Option (RE × Nat) :=
  match p.get? i with
  | some '*' => some (.star a, i + 1)
  | some '+' => some (.seq a (.star a), i + 1)
  | some '?' => some (.opt a, i + 1)
  | some '\x7b' =>
    match parseDigits p (p.length + 1) (i + 1) 0 with
    | none => none
    | some (m, j) =>
      match p.get? j with
      | some '\x7d' =>
        -- exactly m copies
        some (reRepeat a m .eps, j + 1)
      | some ',' =>
        match parseDigits p (p.length + 1) (j + 1) 0 with
        | none => none
        | some (n, k) =>
          match p.get? k with
          | some '\x7d' =>
            -- m mandatory copies then (n-m) optional ones
            some (reRepeat a m (reRepeat (.opt a) (n - m) .eps), k + 1)
          | _ => none
      | _ => none
  | _ => some (a, i)

/-- The three grammar levels of the pattern parser: alternation,
concatenation, atom. -/
inductive PMode where
  | alt | cat | atom
deriving Repr, DecidableEq

/-- The recursive core of the pattern parser, as a single fuel-structural
function (so that kernel reduction works).  `alt := cat ('|' alt)?`;
`cat := (atom postfix)*` stopping at `|`, `)` or the end; `atom` is a group,
a negative lookahead, a class, an escape, an anchor, `.` or a literal. -/
def parseR (p : PyStr) : Nat → PMode → Nat → Option (RE × Nat)
  | 0, _, _ => none
  | fuel + 1, .alt, i =>
    match parseR p fuel .cat i with
    | none => none
    | some (a, j) =>
      match p.get? j with
      | some '|' =>
        match parseR p fuel .alt (j + 1) with
        | some (b, k) => some (.alt a b, k)
        | none => none
      | _ => some (a, j)
  | fuel + 1, .cat, i =>
    match p.get? i with
    | none => some (.eps, i)
    | some '|' => some (.eps, i)
    | some ')' => some (.eps, i)
    | some _ =>
      match parseR p fuel .atom i with
      | none => none
      | some (a, j) =>
        match parsePostfix p a j with
        | none => none
        | some (a2, k) =>
          match parseR p fuel .cat k with
          | some (b, l) => some (.seq a2 b, l)
          | none => none
  | fuel + 1, .atom, i =>
    match p.get? i with
    | none => none
    | some '(' =>
      match p.get? (i + 1), p.get? (i + 2) with
      | some '?', some '!' =>
        match parseR p fuel .alt (i + 3) with
        | some (r, j) =>
          match p.get? j with
          | some ')' => some (.look true r, j + 1)
          | _ => none
        | none => none
      | some '?', _ => none  -- other (?...) forms: not used by the triggers
      | _, _ =>
        match parseR p fuel .alt (i + 1) with
        | some (r, j) =>
          match p.get? j with
          | some ')' => some (r, j + 1)
          | _ => none
        | none => none
    | some '[' =>
      match parseClassItems p (p.length + 1) (i + 1) with
      | some (items, j) => some (.cls items, j)
      | none => none
    | some '\\' => parseEscape p (i + 1)
    | some '^' => some (.bol, i + 1)
    | some '$' => some (.eol, i + 1)
    | some '.' => some (.any, i + 1)
    | some '*' => none
    | some '+' => none
    | some '?' => none
    | some c => some (.lit c, i + 1)

/-- Compile a full pattern string; fails unless the whole pattern is
consumed (the parser's recursion depth is at most three levels per pattern
character, so the fuel below is ample). -/
def parseRE (p : PyStr) : Option RE :=
  match parseR p (3 * p.length + 10) .alt 0 with
  | some (r, j) => if j = p.length then some r else none
  | none => none

/-- `re.search(pattern, s, re.IGNORECASE) is not None` for a pattern given as
its source text.  An unparsable pattern yields `false`; every pattern
registered by the skills parses (Python would instead raise a configuration
error at registration time). -/
def reSearch (pattern : String) (s : PyStr) : Bool :=
  match parseRE pattern.data with
  | some r => reSearchRE r s
  | none => false

/-! ## Skills (`skills/base_skill.py` and the eight concrete skills) -/

/-- Result of matching a query against a skill (`SkillMatch` dataclass). -/
structure SkillMatch where
  skill_name : String
  confidence : ℚ
  matched_pattern : Option String
  tools_available : List String
deriving Repr, DecidableEq

/-- A skill: unique name, trigger patterns, tool names, priority and its
confidence computation (`BaseSkill._calculate_confidence`, which
`ReplenishmentSkill` overrides).  `description` and `system_prompt` play no
role in routing and are omitted. -/
structure Skill where
  name : String
  triggers : List String
  tools : List String
  priority : Int
  calcConfidence : PyStr → PyStr → ℚ

/-- Rational addition in a kernel-computable form (the library's `Rat.add`
is `irreducible`, which blocks `decide`); `ratAdd_eq` below identifies it
with `+`. -/
def ratAdd (a b : ℚ) : ℚ :=
  mkRat (a.num * b.den + b.num * a.den) (a.den * b.den)

/-- Rational subtraction in a kernel-computable form; `ratSub_eq` below
identifies it with `-`. -/
def ratSub (a b : ℚ) : ℚ :=
  mkRat (a.num * b.den - b.num * a.den) (a.den * b.den)

/-- `ratAdd` is addition. -/
theorem ratAdd_eq (a b : ℚ) : ratAdd a b = a + b := by
  have ha : (a.den : ℚ) ≠ 0 := Nat.cast_ne_zero.mpr a.den_nz
  have hb : (b.den : ℚ) ≠ 0 := Nat.cast_ne_zero.mpr b.den_nz
  rw [ratAdd, Rat.mkRat_eq_div]
  push_cast
  conv_rhs => rw [← Rat.num_div_den a, ← Rat.num_div_den b]
  rw [div_add_div _ _ ha hb]
  ring_nf

/-- `ratSub` is subtraction. -/
theorem ratSub_eq (a b : ℚ) : ratSub a b = a - b := by
  have ha : (a.den : ℚ) ≠ 0 := Nat.cast_ne_zero.mpr a.den_nz
  have hb : (b.den : ℚ) ≠ 0 := Nat.cast_ne_zero.mpr b.den_nz
  rw [ratSub, Rat.mkRat_eq_div]
  push_cast
  conv_rhs => rw [← Rat.num_div_den a, ← Rat.num_div_den b]
  rw [div_sub_div _ _ ha hb]
  ring_nf

/-- `BaseSkill._calculate_confidence(pattern, query)`: base 0.7, +0.1 for a
pattern longer than 30 characters, +0.1 for ≥ 2 and a further +0.1 for ≥ 3
distinct word tokens of the pattern occurring among the query's word tokens,
clamped at 1.0. -/
def defaultCalcConfidence (pattern query : PyStr) : ℚ :=
  let confidence : ℚ := mkRat 7 10
  let confidence := if 30 < pattern.length then ratAdd confidence (mkRat 1 10) else confidence
  let patternKeywords := wordTokens (pyLower pattern)
  let queryKeywords := wordTokens (pyLower query)
  let keywordOverlap :=
    ((dedupKF patternKeywords).filter (fun t => t ∈ queryKeywords)).length
  let confidence := if 2 ≤ keywordOverlap then ratAdd confidence (mkRat 1 10) else confidence
  let confidence := if 3 ≤ keywordOverlap then ratAdd confidence (mkRat 1 10) else confidence
  if confidence ≤ 1 then confidence else 1

/-- `ReplenishmentSkill._calculate_confidence` (the pattern argument is
ignored; the query is lowered again and probed with three regexes). -/
def replenishmentCalcConfidence (_pattern query : PyStr) : ℚ :=
  let ql := pyLower query
  if reSearch "\\b(replenish|restock|resupply)\\b" ql then mkRat 19 20
  else if reSearch "(create|place|initiate|submit|make).*(shipment|order|request)" ql then mkRat 9 10
  else if reSearch "(yes|ok|confirm|proceed|go ahead).*(replenish|restock|ship)" ql then mkRat 9 10
  else mkRat 3 4

/-- `BaseSkill.matches(query)`: lower the query, fire the first trigger that
`re.search` finds, and build a `SkillMatch` scored by the skill's confidence
computation. -/
def skillMatches (s : Skill) (query : String) : Option SkillMatch :=
  match s.triggers.find? (fun p => reSearch p (pyLower query.data)) with
  | some p =>
    some { skill_name := s.name
           confidence := s.calcConfidence p.data (pyLower query.data)
           matched_pattern := some p
           tools_available := s.tools }
  | none => none

/-- `ProductSkill` (priority 20). -/
def productSkill : Skill where
  name := "product_expert"
  triggers :=
    [ "\\bchainsaw"
    , "\\btrimmer"
    , "\\bblower"
    , "\\bhedge"
    , "\\bpressure.washer"
    , "\\bsprayer"
    , "\\b(ms|fs|bg|hs|rb|re|sr)\\s*[-]?\\s*\\d\x7b2,4\x7d\\b"
    , "(best|recommend|suggest|ideal).*(for|to)"
    , "(which|what).*(should|would|could).*(buy|use|get)"
    , "(looking for|need).*(equipment|tool)"
    , "recommendation"
    , "(compare|vs|versus|difference|better).*(ms|fs|bg|hs)"
    , "(ms|fs|bg|hs)\\s*\\d+.*(vs|versus|or|compared)"
    , "(feature|specification|spec|weight|power|engine|battery)"
    , "(anti.?vibration|easy.?start|m.?tronic|intellicarb)"
    , "(professional|homeowner|commercial|residential).*(use|grade)"
    , "(heavy|light).*(duty)"
    , "(logging|firewood|yard|lawn|garden)"
    , "(battery.powered|gas.powered|electric|cordless)" ]
  tools := ["search_products", "compare_products", "get_product_recommendations"]
  priority := 20
  calcConfidence := defaultCalcConfidence

/-- `SalesSkill` (priority 15). -/
def salesSkill : Skill where
  name := "sales_analyst"
  triggers :=
    [ "\\brevenue\\b"
    , "\\bsales\\b(?!.*forecast)"
    , "\\bsold\\b"
    , "how much.*(made|earned)"
    , "(top|best|worst|bottom).*(product|region|category|seller)(?!.*dealer)"
    , "(rank|ranking|leaderboard)"
    , "(ytd|year.to.date|mtd|qtd)"
    , "(last|previous|this).*(month|quarter|year).*(revenue|sales|total)"
    , "(2024|2025|q1|q2|q3|q4).*(revenue|sales|total)"
    , "(breakdown|split|distribution).*(by|of)"
    , "(by|per).*(region|category|product).*(sales|revenue)?"
    , "(regional|category).*(breakdown|performance|sales)" ]
  tools := ["query_sales_data"]
  priority := 15
  calcConfidence := defaultCalcConfidence

/-- `InventorySkill` (priority 17). -/
def inventorySkill : Skill where
  name := "inventory_analyst"
  triggers :=
    [ "\\binventory"
    , "\\bstock\\b"
    , "\\bstockout"
    , "\\bstock.?out"
    , "(low|critical|out of).*(stock|inventory)"
    , "running low"
    , "(in stock|on hand)"
    , "how (much|many).*(inventory|stock|left|remaining)"
    , "days.*(of)?.*(supply|inventory)"
    , "(how long|when).*(last|run out)"
    , "warehouse"
    , "distribution.center"
    , "(restock|reorder|replenish)"
    , "(critical|low|normal).*(status|level)" ]
  tools := ["query_inventory_data"]
  priority := 17
  calcConfidence := defaultCalcConfidence

/-- `InsightsSkill` (priority 25). -/
def insightsSkill : Skill where
  name := "insights_advisor"
  triggers :=
    [ "anomal.*(2024|2025|q[1-4]|march|april|january|february|may|june|july|august|september|october|november|december)"
    , "(detect|find|run).*anomal"
    , "^(good\\s+)?(morning|afternoon|evening|day)"
    , "^(hi|hello|hey)\\s*(!|,|\\.|$)"
    , "(daily|morning|weekly)\\s+.*(briefing|update|summary|report)"
    , "(what|anything).*(should|need).*(know|attention|aware)"
    , "(catch me up|bring me up|update me)"
    , "(alert|warning|issue|problem|concern)"
    , "(any|are there)\\s+.*(alert|issue|problem|anomal)"
    , "(what|which).*(wrong|issue|problem|attention)"
    , "(urgent|critical|important).*(issue|alert|matter)"
    , "anomal.*(20\\d\x7b2\x7d|q[1-4]|jan|feb|mar|apr|may|jun|jul|aug|sep|oct|nov|dec)"
    , "(anomal|unusual|abnormal|unexpected|outlier|spike|drop)"
    , "(detect|find|identify)\\s+.*(anomal|unusual|pattern)"
    , "(something).*(off|wrong|unusual|strange)"
    , "(deviation|variance|fluctuation)"
    , "(insight|observation|finding|discovery)"
    , "(what|any).*(insight|observation|notable|interesting)"
    , "(trend|pattern).*(notice|see|identify|detect)"
    , "(proactive|ahead|anticipate)"
    , "(forecast|predict|expect).*(issue|problem|alert)"
    , "(risk|opportunity).*(identify|detect|see)" ]
  tools := ["get_proactive_insights", "detect_anomalies_realtime", "get_daily_briefing"]
  priority := 25
  calcConfidence := defaultCalcConfidence

/-- `DealerSkill` (priority 22). -/
def dealerSkill : Skill where
  name := "dealer_analyst"
  triggers :=
    [ "\\bdealer"
    , "\\breseller"
    , "\\bdistributor"
    , "\\bpartner\\b(?!.*product)"
    , "(network|coverage|territory|gap)"
    , "(flagship|authorized|service.center)"
    , "(top|best|worst).*(dealer|partner|reseller)"
    , "(dealer|partner).*(performance|ranking|tier)" ]
  tools := ["query_dealer_data"]
  priority := 22
  calcConfidence := defaultCalcConfidence

/-- `ForecastSkill` (priority 24). -/
def forecastSkill : Skill where
  name := "forecast_analyst"
  triggers :=
    [ "\\bforecast"
    , "\\bpredict"
    , "\\bprojection"
    , "\\bproject\\b"
    , "(next|upcoming|future).*(month|quarter|year)"
    , "(will|expect|should).*(be|hit|reach)"
    , "(what|how much).*(will|expect|likely)"
    , "\\bseason"
    , "(peak|slow|busy).*(time|period|month)"
    , "(busiest|slowest)"
    , "(year.end|annual).*(projection|estimate)"
    , "(run.rate|pace|trajectory)"
    , "(on track|ahead|behind)" ]
  tools := ["get_sales_forecast"]
  priority := 24
  calcConfidence := defaultCalcConfidence

/-- `TrendSkill` (priority 19). -/
def trendSkill : Skill where
  name := "trend_analyst"
  triggers :=
    [ "\\byoy\\b"
    , "\\by/y\\b"
    , "\\bmom\\b"
    , "\\bm/m\\b"
    , "year.over.year"
    , "month.over.month"
    , "(compare|vs|versus).*(last|prior|previous).*(year|month)"
    , "(this|current).*(year|month).*(vs|versus|compared)"
    , "how.*(changed|different|grown|declined)"
    , "\\bgrowth"
    , "\\bgrowing\\b"
    , "\\bdecline"
    , "\\bdeclining\\b"
    , "(up|down|increase|decrease).+\\d+\\s*%"
    , "\\bmomentum"
    , "\\btrend"
    , "(accelerat|decelerat|slowing|picking up)" ]
  tools := ["analyze_trends"]
  priority := 19
  calcConfidence := defaultCalcConfidence

/-- `ReplenishmentSkill` (priority 30, overridden confidence computation). -/
def replenishmentSkill : Skill where
  name := "replenishment_coordinator"
  triggers :=
    [ "^replenish\\b"
    , "\\breplenish\\s+product\\b"
    , "\\breplenish\\s+\\w+\\s+for\\b"
    , "(yes|yeah|sure|ok|okay|confirm|confirmed|proceed|go ahead|do it|please do).*(replenish|restock|shipment|request|resupply|ship)"
    , "(yes|yeah|sure|ok|okay|confirm|confirmed|proceed|go ahead|do it|please do).*(create|initiate|submit|make).*(request|order)"
    , "(place|initiate|create|submit|make).*(expedited|urgent|emergency)?.*(shipment|request|replenish|restock|order)"
    , "expedited.*(replenish|order|shipment)"
    , "(replenish|restock|resupply).*(inventory|stock|product|order)"
    , "(send|ship|transfer).*(product|inventory|stock|units).*to"
    , "(check|show|list|view).*(shipment|replenishment).*(request|order|status)"
    , "pending.*(shipment|request|order)"
    , "request.*shipment"
    , "shipment.*request"
    , "replenishment.*(request|order)"
    , "restock.*order"
    , "(replenish|restock|order).*(for|product)" ]
  tools := ["create_shipment_request", "get_shipment_requests", "query_inventory_data"]
  priority := 30
  calcConfidence := replenishmentCalcConfidence

/-! ## Skill router (`skills/router.py`) -/

/-- The router's `_skills` dict: an insertion-ordered association list with
unique keys (Python `dict` semantics). -/
abbrev RouterState := List (String × Skill)

/-- `SkillRouter.register`: insert under the skill's name, overwriting in
place when the name is already registered. -/
def registerSkill (st : RouterState) (s : Skill) : RouterState :=
  if st.any (fun kv => kv.1 = s.name) then
    st.map (fun kv => if kv.1 = s.name then (kv.1, s) else kv)
  else st ++ [(s.name, s)]

/-- `self._skills.get(name)`. -/
def lookupSkill (st : RouterState) (n : String) : Option Skill :=
  (st.find? (fun kv => kv.1 = n)).map (fun kv => kv.2)

/-- Stable insertion (from the right) for a descending sort: `x` is placed
after every earlier element it is strictly below, and before the first
element not strictly above it. -/
def insertDescr (lt : α → α → Bool) (x : α) : List α → List α
  | [] => [x]
  | y :: ys => if lt x y then y :: insertDescr lt x ys else x :: y :: ys

/-- Stable descending sort (the semantics of Python's stable
`sorted(..., reverse=True)` / `list.sort(..., reverse=True)`). -/
def sortDescr (lt : α → α → Bool) (l : List α) : List α :=
  l.foldr (insertDescr lt) []

/-- Strict comparison of Python tuples `(confidence, priority)`. -/
def keyLt (a b : ℚ × Int) : Bool :=
  a.1 < b.1 || (a.1 = b.1 && a.2 < b.2)

/-- `SkillRouter.skills`: registered skills sorted by descending priority
(stable, so equal priorities keep registration order). -/
def routerSkills (st : RouterState) : List Skill :=
  sortDescr (fun a b => decide (a.priority < b.priority)) (st.map (fun kv => kv.2))

/-- The sort key of `SkillRouter.route`: `(m.confidence,
self._skills[m.skill_name].priority)` (the lookup cannot fail for matches
produced by registered skills; the model defaults to priority 0). -/
def matchKey (st : RouterState) (m : SkillMatch) : ℚ × Int :=
  (m.confidence, (Option.map (fun s => s.priority) (lookupSkill st m.skill_name)).getD 0)

/-- The matches collected by `SkillRouter.route`, in iteration order
(priority-descending skill order). -/
def collectMatches (st : RouterState) (query : String) : List SkillMatch :=
  (routerSkills st).filterMap (fun s => skillMatches s query)

/-- `SkillRouter.route`: collect all matches, stably sort them descending by
`(confidence, priority)` and return the first, or `none` when nothing
matched. -/
def route (st : RouterState) (query : String) : Option SkillMatch :=
  match sortDescr (fun a b => keyLt (matchKey st a) (matchKey st b))
      (collectMatches st query) with
  | [] => none
  | m :: _ => some m

/-- `SkillRouter._register_default_skills`: the eight built-in skills in
registration order. -/
def defaultRouterState : RouterState :=
  [ productSkill, salesSkill, inventorySkill, insightsSkill,
    dealerSkill, forecastSkill, trendSkill, replenishmentSkill
  ].foldl registerSkill []

/-! ### Facts about the stable descending sort -/

section SortLemmas

variable {α : Type} (lt : α → α → Bool)

theorem insertDescr_length (x : α) (l : List α) :
    (insertDescr lt x l).length = l.length + 1 := by
  induction l with
  | nil => rfl
  | cons y ys ih =>
    simp only [insertDescr]
    by_cases h : lt x y
    · simp [h, ih]
    · simp [h]

theorem sortDescr_length (l : List α) : (sortDescr lt l).length = l.length := by
  induction l with
  | nil => rfl
  | cons a t ih => simp [sortDescr, List.foldr] at ih ⊢; rw [insertDescr_length, ih]

theorem insertDescr_perm (x : α) (l : List α) :
    (insertDescr lt x l).Perm (x :: l) := by
  induction l with
  | nil => exact List.Perm.refl _
  | cons y ys ih =>
    simp only [insertDescr]
    by_cases h : lt x y
    · simp only [h, if_pos]
      exact ((ih.cons y).trans (List.Perm.swap x y ys))
    · simp [h]

theorem sortDescr_perm (l : List α) : (sortDescr lt l).Perm l := by
  induction l with
  | nil => exact List.Perm.refl _
  | cons a t ih =>
    have : sortDescr lt (a :: t) = insertDescr lt a (sortDescr lt t) := rfl
    rw [this]
    exact (insertDescr_perm lt a (sortDescr lt t)).trans (ih.cons a)

/-- The head of the stable descending sort is the first element of the input
attaining the maximum: it beats nothing, and everything strictly before it in
the input is strictly below it. -/
theorem sortDescr_head_first_max
    (hasym : ∀ a b : α, lt a b = true → lt b a = false)
    (hneg : ∀ a b c : α, lt a b = false → lt b c = false → lt a c = false)
    (l : List α) (m : α) (rest : List α)
    (h : sortDescr lt l = m :: rest) :
    ∃ l₁ l₂, l = l₁ ++ m :: l₂ ∧
      (∀ x ∈ l, lt m x = false) ∧
      (∀ x ∈ l₁, lt x m = true) := by
  have hirrefl : ∀ a : α, lt a a = false := by
    intro a
    by_cases hx : lt a a = true
    · exact hasym a a hx
    · simpa using hx
  induction l generalizing m rest with
  | nil => simp [sortDescr] at h
  | cons a t ih =>
    have hstep : sortDescr lt (a :: t) = insertDescr lt a (sortDescr lt t) := rfl
    rw [hstep] at h
    cases hsort : sortDescr lt t with
    | nil =>
      have ht : t = [] := by
        have := sortDescr_length lt t
        rw [hsort] at this
        exact List.length_eq_zero.mp this.symm
      subst ht
      rw [hsort] at h
      simp only [insertDescr] at h
      have ham := (List.cons.inj h).1
      subst ham
      exact ⟨[], [], rfl, by simpa using hirrefl a, by simp⟩
    | cons b r =>
      rw [hsort] at h
      simp only [insertDescr] at h
      by_cases hab : lt a b = true
      · rw [if_pos hab] at h
        have hbm := (List.cons.inj h).1
        subst hbm
        obtain ⟨t₁, t₂, hdec, hmax, hpre⟩ := ih b r hsort
        refine ⟨a :: t₁, t₂, by simp [hdec], ?_, ?_⟩
        · intro x hx
          rcases List.mem_cons.mp hx with rfl | hx
          · exact hasym x b hab
          · exact hmax x hx
        · intro x hx
          rcases List.mem_cons.mp hx with rfl | hx
          · exact hab
          · exact hpre x hx
      · rw [if_neg hab] at h
        have ham := (List.cons.inj h).1
        subst ham
        obtain ⟨t₁, t₂, hdec, hmax, _⟩ := ih b r hsort
        refine ⟨[], t, rfl, ?_, by simp⟩
        intro x hx
        rcases List.mem_cons.mp hx with rfl | hx
        · exact hirrefl x
        · have hmb : lt a b = false := by simpa using hab
          exact hneg a b x hmb (hmax x hx)

end SortLemmas

/-- Unfolding `keyLt` to the lexicographic comparison of Python tuples. -/
theorem keyLt_iff (a b : ℚ × Int) :
    keyLt a b = true ↔ (a.1 < b.1 ∨ (a.1 = b.1 ∧ a.2 < b.2)) := by
  simp [keyLt]

/-- `keyLt` is asymmetric. -/
theorem keyLt_asymm (a b : ℚ × Int) : keyLt a b = true → keyLt b a = false := by
  intro h
  rw [Bool.eq_false_iff]
  intro h2
  rw [keyLt_iff] at h h2
  rcases h with h | ⟨he, hi⟩ <;> rcases h2 with g | ⟨ge, gi⟩
  · linarith
  · linarith [ge.le]
  · linarith [he.le]
  · omega

/-- `keyLt` is negatively transitive. -/
theorem keyLt_negtrans (a b c : ℚ × Int) :
    keyLt a b = false → keyLt b c = false → keyLt a c = false := by
  intro hab hbc
  have h1 : ¬(a.1 < b.1 ∨ (a.1 = b.1 ∧ a.2 < b.2)) := fun hx => by
    rw [← keyLt_iff] at hx; rw [hab] at hx; exact Bool.false_ne_true hx
  have h2 : ¬(b.1 < c.1 ∨ (b.1 = c.1 ∧ b.2 < c.2)) := fun hx => by
    rw [← keyLt_iff] at hx; rw [hbc] at hx; exact Bool.false_ne_true hx
  rw [Bool.eq_false_iff]
  intro hx
  rw [keyLt_iff] at hx
  push_neg at h1 h2
  obtain ⟨h1a, h1b⟩ := h1
  obtain ⟨h2a, h2b⟩ := h2
  rcases hx with h | ⟨he, hi⟩
  · linarith
  · have e1 : a.1 = b.1 := by linarith
    have e2 : b.1 = c.1 := by linarith
    have i1 := h1b e1
    have i2 := h2b e2
    omega

/-- In an association list with distinct keys, lookup of a present key finds
its (unique) value. -/
theorem lookupSkill_of_mem (st : RouterState)
    (hnodup : (st.map Prod.fst).Nodup) {n : String} {s : Skill}
    (h : (n, s) ∈ st) : lookupSkill st n = some s := by
  induction st with
  | nil => cases h
  | cons kv t ih =>
    obtain ⟨k, v⟩ := kv
    simp only [List.map_cons, List.nodup_cons] at hnodup
    obtain ⟨hk, hnd⟩ := hnodup
    rcases List.mem_cons.mp h with he | ht
    · obtain ⟨rfl, rfl⟩ := Prod.mk.inj he.symm
      simp [lookupSkill, List.find?]
    · have hne : k ≠ n := by
        intro he2
        exact hk (he2 ▸ List.mem_map_of_mem Prod.fst ht)
      have hd : (decide (k = n)) = false := by simpa using hne
      simpa [lookupSkill, List.find?, hd] using ih hnd ht

/-- `BaseSkill.matches` yields a match carrying the skill's own name, a fired
trigger and the skill's confidence score for it. -/
theorem skillMatches_spec {s : Skill} {q : String} {m : SkillMatch}
    (hm : skillMatches s q = some m) :
    m.skill_name = s.name ∧ m.tools_available = s.tools ∧
    ∃ p, m.matched_pattern = some p ∧ p ∈ s.triggers ∧
      reSearch p (pyLower q.data) = true ∧
      m.confidence = s.calcConfidence p.data (pyLower q.data) := by
  unfold skillMatches at hm
  cases hfind : s.triggers.find? (fun p => reSearch p (pyLower q.data)) with
  | none => rw [hfind] at hm; cases hm
  | some p =>
    rw [hfind] at hm
    obtain rfl := (Option.some.inj hm).symm
    exact ⟨rfl, rfl, p, rfl, List.mem_of_find?_eq_some hfind,
      by simpa using List.find?_some hfind, rfl⟩

/-- Under dict coherence, the sort key the router computes for a match is the
pair (confidence of the match, priority of the skill that produced it). -/
theorem matchKey_of_matches (st : RouterState)
    (hcoh : ∀ p ∈ st, (p.2).name = p.1)
    (hnodup : (st.map Prod.fst).Nodup)
    {s : Skill} {q : String} {m : SkillMatch}
    (hs : s ∈ st.map Prod.snd) (hm : skillMatches s q = some m) :
    matchKey st m = (m.confidence, s.priority) := by
  obtain ⟨⟨n, s'⟩, hmem, he⟩ := List.mem_map.mp hs
  have he' : s' = s := he
  have hn : n = s.name := by rw [← he']; exact (hcoh _ hmem).symm
  have hmem' : (s.name, s) ∈ st := by rw [← hn, ← he']; exact hmem
  have hname := (skillMatches_spec hm).1
  unfold matchKey
  rw [hname, lookupSkill_of_mem st hnodup hmem']
  rfl

/-- C1.  For every query on which at least one registered skill's trigger
fires, `route` returns exactly one `SkillMatch`: the one maximizing the pair
`(confidence, skill priority)` compared lexicographically (`keyLt`), with
ties on both components resolved to the match found first in the
priority-descending iteration order (`collectMatches`); every match strictly
earlier in that order has a strictly smaller key.  When no trigger fires,
`route` returns `none`.  The hypotheses state the `dict` invariants of the
router's skill registry (keys are the skills' names, and are unique). -/
theorem route_returns_best_match (st : RouterState) (query : String)
    (hcoh : ∀ p ∈ st, (p.2).name = p.1)
    (hnodup : (st.map Prod.fst).Nodup) :
    ((∃ s ∈ st.map Prod.snd, (skillMatches s query).isSome) →
      ∃ m l₁ l₂,
        route st query = some m ∧
        collectMatches st query = l₁ ++ m :: l₂ ∧
        (∀ m' ∈ collectMatches st query,
          keyLt (matchKey st m) (matchKey st m') = false) ∧
        (∀ m' ∈ l₁, keyLt (matchKey st m') (matchKey st m) = true) ∧
        (∀ s ∈ st.map Prod.snd, ∀ m', skillMatches s query = some m' →
          matchKey st m' = (m'.confidence, s.priority))) ∧
    ((∀ s ∈ st.map Prod.snd, skillMatches s query = none) →
      route st query = none) := by
  constructor
  · rintro ⟨s, hs, hsome⟩
    have hperm : (routerSkills st).Perm (st.map Prod.snd) :=
      sortDescr_perm _ _
    have hs' : s ∈ routerSkills st := hperm.mem_iff.mpr hs
    have hne : collectMatches st query ≠ [] := by
      intro hnil
      obtain ⟨m, hm⟩ := Option.isSome_iff_exists.mp hsome
      have := (List.filterMap_eq_nil_iff.mp hnil) s hs'
      rw [this] at hm
      cases hm
    cases hsortE : sortDescr
        (fun a b => keyLt (matchKey st a) (matchKey st b))
        (collectMatches st query) with
    | nil =>
      exfalso
      apply hne
      have := sortDescr_length
        (fun a b => keyLt (matchKey st a) (matchKey st b))
        (collectMatches st query)
      rw [hsortE] at this
      exact List.length_eq_zero.mp this.symm
    | cons m rest =>
      obtain ⟨l₁, l₂, hdec, hmax, hpre⟩ :=
        sortDescr_head_first_max
          (fun a b => keyLt (matchKey st a) (matchKey st b))
          (fun a b h => keyLt_asymm _ _ h)
          (fun a b c h1 h2 => keyLt_negtrans _ _ _ h1 h2)
          (collectMatches st query) m rest hsortE
      refine ⟨m, l₁, l₂, ?_, hdec, hmax, hpre, ?_⟩
      · unfold route
        rw [hsortE]
      · intro s2 hs2 m' hm'
        exact matchKey_of_matches st hcoh hnodup hs2 hm'
  · intro hnone
    have hnil : collectMatches st query = [] := by
      apply List.filterMap_eq_nil_iff.mpr
      intro s2 hs2
      exact hnone s2 ((sortDescr_perm _ _).mem_iff.mp hs2)
    unfold route
    rw [hnil]
    rfl

/-- Witness for `route_returns_best_match` at the default router: on the
query "yes, replenish the chainsaws for Northeast" some trigger fires and
`route` returns a first-maximal match; on the query "zzz" no trigger fires
and `route` returns `none`. -/
theorem route_returns_best_match_witness :
    (∃ m l₁ l₂,
        route defaultRouterState "yes, replenish the chainsaws for Northeast" = some m ∧
        collectMatches defaultRouterState "yes, replenish the chainsaws for Northeast" = l₁ ++ m :: l₂ ∧
        (∀ m' ∈ collectMatches defaultRouterState "yes, replenish the chainsaws for Northeast",
          keyLt (matchKey defaultRouterState m) (matchKey defaultRouterState m') = false) ∧
        (∀ m' ∈ l₁, keyLt (matchKey defaultRouterState m') (matchKey defaultRouterState m) = true) ∧
        (∀ s ∈ defaultRouterState.map Prod.snd, ∀ m',
          skillMatches s "yes, replenish the chainsaws for Northeast" = some m' →
          matchKey defaultRouterState m' = (m'.confidence, s.priority))) ∧
    route defaultRouterState "zzz" = none :=
  ⟨(route_returns_best_match defaultRouterState
      "yes, replenish the chainsaws for Northeast" (by decide) (by decide)).1
      ⟨replenishmentSkill, by
        show replenishmentSkill ∈
          [ productSkill, salesSkill, inventorySkill, insightsSkill,
            dealerSkill, forecastSkill, trendSkill, replenishmentSkill ]
        exact .tail _ (.tail _ (.tail _ (.tail _ (.tail _ (.tail _ (.tail _ (.head _)))))))
      , by decide⟩,
   (route_returns_best_match defaultRouterState "zzz" (by decide) (by decide)).2
      (by decide)⟩

/-- The `set(pattern_keywords) & query_keywords` overlap of
`BaseSkill._calculate_confidence`: the number of distinct word tokens of
`pattern` occurring among the word tokens of `query`. -/
def overlapCount (pattern query : PyStr) : Nat :=
  ((dedupKF (wordTokens (pyLower pattern))).filter
    (fun t => t ∈ wordTokens (pyLower query))).length

/-- C2.  For every skill that uses the default confidence computation, on
every query whose trigger fires the match's confidence equals
0.70 + 0.10·[pattern longer than 30 characters]
     + 0.10·[at least 2 keyword tokens of the pattern occur in the query]
     + 0.10·[at least 3 keyword tokens occur]
(the clamp at 1.0 of the source never bites because the three boosts sum to
at most 0.30), and therefore always lies in [0.70, 1.0]. -/
theorem default_confidence_formula (s : Skill) (query : String) (m : SkillMatch)
    (hdef : s.calcConfidence = defaultCalcConfidence)
    (hm : skillMatches s query = some m) :
    ∃ p, m.matched_pattern = some p ∧
      m.confidence =
        7/10 + (if 30 < p.data.length then (1:ℚ)/10 else 0)
          + (if 2 ≤ overlapCount p.data (pyLower query.data) then (1:ℚ)/10 else 0)
          + (if 3 ≤ overlapCount p.data (pyLower query.data) then (1:ℚ)/10 else 0) ∧
      7/10 ≤ m.confidence ∧ m.confidence ≤ 1 := by
  obtain ⟨-, -, p, hp, -, -, hconf⟩ := skillMatches_spec hm
  refine ⟨p, hp, ?_⟩
  rw [hconf, hdef]
  unfold defaultCalcConfidence overlapCount
  by_cases h1 : 30 < p.data.length <;>
    by_cases h2 : 2 ≤ ((dedupKF (wordTokens (pyLower p.data))).filter
      (fun t => t ∈ wordTokens (pyLower (pyLower query.data)))).length <;>
    by_cases h3 : 3 ≤ ((dedupKF (wordTokens (pyLower p.data))).filter
      (fun t => t ∈ wordTokens (pyLower (pyLower query.data)))).length <;>
    simp only [h1, h2, h3, if_true, if_false, ite_true, ite_false,
      ratAdd_eq] <;>
    norm_num [Rat.mkRat_eq_div]

/-- Witness for `default_confidence_formula`: the product skill (which uses
the default computation) fires on "yes, replenish the chainsaws for
Northeast" via the pattern `\bchainsaw`, whose confidence the formula
evaluates to 0.70. -/
theorem default_confidence_formula_witness :
    ∃ p, (some "\\bchainsaw" : Option String) = some p ∧
      mkRat 7 10 =
        7/10 + (if 30 < p.data.length then (1:ℚ)/10 else 0)
          + (if 2 ≤ overlapCount p.data
              (pyLower "yes, replenish the chainsaws for Northeast".data) then (1:ℚ)/10 else 0)
          + (if 3 ≤ overlapCount p.data
              (pyLower "yes, replenish the chainsaws for Northeast".data) then (1:ℚ)/10 else 0) ∧
      7/10 ≤ mkRat 7 10 ∧ mkRat 7 10 ≤ 1 := by
  have h := default_confidence_formula productSkill
    "yes, replenish the chainsaws for Northeast"
    { skill_name := "product_expert", confidence := mkRat 7 10,
      matched_pattern := some "\\bchainsaw",
      tools_available := ["search_products", "compare_products",
        "get_product_recommendations"] }
    rfl (by decide)
  simpa using h

/-- C3.  On the query "yes, replenish the chainsaws for Northeast" both the
replenishment skill and the product skill trigger; the replenishment match
has confidence 19/20 = 0.95 (priority 30), the product match has confidence
7/10 ≤ 0.80, and `route` returns the replenishment skill's match. -/
theorem replenishment_beats_product_on_confirmation_query :
    skillMatches replenishmentSkill "yes, replenish the chainsaws for Northeast"
      = some { skill_name := "replenishment_coordinator", confidence := mkRat 19 20,
               matched_pattern := some "(yes|yeah|sure|ok|okay|confirm|confirmed|proceed|go ahead|do it|please do).*(replenish|restock|shipment|request|resupply|ship)",
               tools_available := ["create_shipment_request", "get_shipment_requests",
                 "query_inventory_data"] } ∧
    replenishmentSkill.priority = 30 ∧
    skillMatches productSkill "yes, replenish the chainsaws for Northeast"
      = some { skill_name := "product_expert", confidence := mkRat 7 10,
               matched_pattern := some "\\bchainsaw",
               tools_available := ["search_products", "compare_products",
                 "get_product_recommendations"] } ∧
    mkRat 7 10 ≤ mkRat 4 5 ∧
    route defaultRouterState "yes, replenish the chainsaws for Northeast"
      = some { skill_name := "replenishment_coordinator", confidence := mkRat 19 20,
               matched_pattern := some "(yes|yeah|sure|ok|okay|confirm|confirmed|proceed|go ahead|do it|please do).*(replenish|restock|shipment|request|resupply|ship)",
               tools_available := ["create_shipment_request", "get_shipment_requests",
                 "query_inventory_data"] } := by
  decide

/-! ## Exact query cache (`optimizations/cache.py`, class `QueryCache`) -/

/-- The `CacheEntry` dataclass (timestamps idealised as rationals). -/
structure CacheEntry where
  query : String
  response : String
  skill_name : Option String
  created_at : ℚ
  hit_count : Nat
deriving Repr, DecidableEq

/-- The `QueryCache` state: the `OrderedDict` is modelled as an ordered
association list whose head is the least recently used entry and whose back
is the most recently used. -/
structure QueryCache where
  max_size : Nat
  ttl_seconds : ℚ
  cache : List (String × CacheEntry)
  hits : Nat
  misses : Nat
deriving Repr, DecidableEq

/-- `QueryCache._normalize_query`: strip whitespace and lower-case. -/
def normalizeQuery (q : String) : String :=
  String.mk (pyLower (pyStrip q.data))

/-- `QueryCache._make_key`: md5 hex digest of the normalised query, modelled
as the normalised query itself (the hash is injective in the model). -/
def makeKey (q : String) : String := normalizeQuery q

/-- Dict lookup `key in d` / `d[key]`. -/
def lookupEntry (cache : List (String × CacheEntry)) (key : String) :
    Option CacheEntry :=
  (cache.find? (fun kv => kv.1 = key)).map (fun kv => kv.2)

/-- Dict deletion `del d[key]`. -/
def eraseKey (cache : List (String × CacheEntry)) (key : String) :
    List (String × CacheEntry) :=
  cache.filter (fun kv => kv.1 ≠ key)

/-- `QueryCache.get(query)` at time `now`: the returned entry (hit counter
already incremented, as the mutation is visible through the returned object)
and the successor state. -/
def cacheGet (c : QueryCache) (query : String) (now : ℚ) :
    Option CacheEntry × QueryCache :=
  let key := makeKey query
  match lookupEntry c.cache key with
  | none => (none, { c with misses := c.misses + 1 })
  | some e =>
    if c.ttl_seconds < ratSub now e.created_at then
      (none, { c with cache := eraseKey c.cache key, misses := c.misses + 1 })
    else
      (some { e with hit_count := e.hit_count + 1 },
       { c with
           cache := (eraseKey c.cache key ++
             [(key, { e with hit_count := e.hit_count + 1 })]),
           hits := c.hits + 1 })

/-- The eviction loop of `QueryCache.set`: while the dict holds at least
`max_size` entries, drop the least recently used (front) one.  (With
`max_size = 0` the Python loop would raise `StopIteration` on the empty
dict; the model returns the empty dict there.) -/
def evictWhile : List (String × CacheEntry) → Nat → List (String × CacheEntry)
  | [], _ => []
  | kv :: t, m => if m ≤ (kv :: t).length then evictWhile t m else kv :: t

/-- Assignment `d[key] = e` on an insertion-ordered dict: overwrite in place
when the key is present (its position is kept, per `OrderedDict` semantics),
otherwise append at the most-recently-used end. -/
def dictSet (cache : List (String × CacheEntry)) (key : String) (e : CacheEntry) :
    List (String × CacheEntry) :=
  if cache.any (fun kv => kv.1 = key) then
    cache.map (fun kv => if kv.1 = key then (key, e) else kv)
  else cache ++ [(key, e)]

/-- `QueryCache.set(query, response, skill_name)` at time `now`. -/
def cacheSet (c : QueryCache) (query response : String)
    (skill_name : Option String) (now : ℚ) : QueryCache :=
  let key := makeKey query
  { c with
      cache := (dictSet (evictWhile c.cache c.max_size) key
        { query := query, response := response, skill_name := skill_name,
          created_at := now, hit_count := 0 }) }

/-- Dict assignment makes the assigned value visible under its key. -/
theorem lookupEntry_dictSet (l : List (String × CacheEntry)) (key : String)
    (e : CacheEntry) : lookupEntry (dictSet l key e) key = some e := by
  unfold dictSet
  by_cases h : l.any (fun kv => kv.1 = key)
  · rw [if_pos h]
    induction l with
    | nil => simp at h
    | cons kv t ih =>
      simp only [List.any_cons, Bool.or_eq_true, decide_eq_true_eq] at h
      by_cases hk : kv.1 = key
      · simp [lookupEntry, List.find?, hk]
      · have ht : t.any (fun kv => kv.1 = key) := by
          rcases h with h | h
          · exact absurd h hk
          · exact h
        have := ih ht
        simp only [lookupEntry, List.map_cons, List.find?, if_neg hk] at this ⊢
        rw [show (decide (kv.1 = key)) = false from by simpa using hk]
        exact this
  · rw [if_neg h]
    induction l with
    | nil => simp [lookupEntry, List.find?]
    | cons kv t ih =>
      simp only [List.any_cons, Bool.or_eq_true, decide_eq_true_eq, not_or] at h
      obtain ⟨hk, ht⟩ := h
      have := ih ht
      simp only [lookupEntry, List.cons_append, List.find?] at this ⊢
      rw [show (decide (kv.1 = key)) = false from by simpa using hk]
      exact this

/-- C4.  Immediately after `set(q, r)`, a `get(q)` (here at the same
timestamp, with a nonnegative TTL) returns an entry whose `response` is `r`
and whose `hit_count` is 1.  And for every cached query, once more than
`ttl_seconds` have elapsed since the entry's creation, `get` returns `none`,
removes the entry from the store and counts the lookup as a miss. -/
theorem cache_set_then_get_and_expiry :
    (∀ (c : QueryCache) (q r : String) (sk : Option String) (now : ℚ),
      0 ≤ c.ttl_seconds →
      ∃ e c', cacheGet (cacheSet c q r sk now) q now = (some e, c') ∧
        e.response = r ∧ e.hit_count = 1) ∧
    (∀ (c : QueryCache) (q : String) (e : CacheEntry) (now : ℚ),
      lookupEntry c.cache (makeKey q) = some e →
      c.ttl_seconds < now - e.created_at →
      cacheGet c q now =
        (none, { c with
                   cache := eraseKey c.cache (makeKey q),
                   misses := c.misses + 1 })) := by
  constructor
  · intro c q r sk now h0
    have hcache : (cacheSet c q r sk now).cache =
        dictSet (evictWhile c.cache c.max_size) (makeKey q)
          { query := q, response := r, skill_name := sk, created_at := now,
            hit_count := 0 } := rfl
    refine ⟨{ query := q, response := r, skill_name := sk, created_at := now,
              hit_count := 1 },
            (cacheGet (cacheSet c q r sk now) q now).2, ?_, rfl, rfl⟩
    have h1 : (cacheGet (cacheSet c q r sk now) q now).1 =
        some { query := q, response := r, skill_name := sk, created_at := now,
               hit_count := 1 } := by
      have htl : (cacheSet c q r sk now).ttl_seconds = c.ttl_seconds := rfl
      simp only [cacheGet, hcache, lookupEntry_dictSet, ratSub_eq, sub_self, htl]
      rw [if_neg (not_lt.mpr h0)]
    exact Prod.ext h1 rfl
  · intro c q e now hlook hexp
    simp only [cacheGet, hlook, ratSub_eq]
    rw [if_pos hexp]

/-- Witness for `cache_set_then_get_and_expiry`: a concrete set/get pair on
an empty cache with TTL 3600, and a concrete expiry at time 4000. -/
def c4cacheEmpty : QueryCache :=
  { max_size := 2, ttl_seconds := 3600, cache := [], hits := 0, misses := 0 }

def c4entry : CacheEntry :=
  { query := "Hi", response := "resp", skill_name := none, created_at := 5, hit_count := 0 }

def c4cacheFull : QueryCache :=
  { max_size := 2, ttl_seconds := 3600, cache := [("hi", c4entry)], hits := 0, misses := 0 }

theorem cache_set_then_get_and_expiry_witness :
    (∃ e c', cacheGet (cacheSet c4cacheEmpty "Hi" "resp" none 5) "Hi" 5 =
        (some e, c') ∧ e.response = "resp" ∧ e.hit_count = 1) ∧
    (cacheGet c4cacheFull "Hi" 4000 =
      (none, { c4cacheFull with
                 cache := eraseKey c4cacheFull.cache (makeKey "Hi"),
                 misses := c4cacheFull.misses + 1 })) := by
  constructor
  · exact (cache_set_then_get_and_expiry.1) c4cacheEmpty "Hi" "resp" none 5
      (by norm_num [c4cacheEmpty])
  · exact (cache_set_then_get_and_expiry.2) c4cacheFull "Hi" c4entry 4000 (by decide)
      (by norm_num [c4cacheFull, c4entry])

/-- A capacity-3 cache built by `set "a"; set "b"; set "a"` (the third call
overwrites the existing key "a" while the cache is below capacity, so no
eviction runs). -/
def c5cache3 : QueryCache :=
  cacheSet (cacheSet (cacheSet
    { max_size := 3, ttl_seconds := 3600, cache := [], hits := 0, misses := 0 }
    "a" "ra" none 0) "b" "rb" none 1) "a" "ra2" none 2

/-- The same cache after two more inserts `set "c"; set "d"` (the last one
reaches capacity and must evict). -/
def c5cache5 : QueryCache :=
  cacheSet (cacheSet c5cache3 "c" "rc" none 3) "d" "rd" none 4

/-- Counterexample to C5 as stated.  The claim says a `set` on a key already
present "resets that key's recency position to most-recently-used", so after
`set a; set b; set a` the recency order would be `[b, a]`, and after two more
inserts the eviction forced by `set "d"` would remove "b" and keep "a".  In
the code (`OrderedDict` assignment) the overwrite keeps the key's old
position: the order after the third `set` is still `[a, b]` (with the
overwritten response visible under "a"), and the eviction forced by
`set "d"` removes "a", not "b". -/
theorem cache_set_overwrite_keeps_position_counterexample :
    c5cache3.cache.map Prod.fst = ["a", "b"] ∧
    lookupEntry c5cache3.cache "a" =
      some { query := "a", response := "ra2", skill_name := none,
             created_at := 2, hit_count := 0 } ∧
    c5cache5.cache.map Prod.fst = ["b", "c", "d"] ∧
    lookupEntry c5cache5.cache (makeKey "a") = none := by
  decide

/-- The eviction loop drops entries from the least-recently-used (front) end,
leaving the final `max_size - 1` most recent ones (everything, when the dict
is below capacity). -/
theorem evictWhile_eq_drop (l : List (String × CacheEntry)) (m : Nat) :
    evictWhile l m = l.drop (l.length + 1 - m) := by
  induction l with
  | nil => simp [evictWhile]
  | cons kv t ih =>
    simp only [evictWhile, List.length_cons]
    by_cases h : m ≤ t.length + 1
    · rw [if_pos h, ih]
      have he : t.length + 1 + 1 - m = (t.length + 1 - m) + 1 := by omega
      rw [he, List.drop_succ_cons]
    · rw [if_neg h]
      have he : t.length + 1 + 1 - m = 0 := by omega
      rw [he, List.drop_zero]

/-- Overwriting an existing key leaves the key order unchanged. -/
theorem dictSet_map_fst_of_mem (l : List (String × CacheEntry)) (key : String)
    (e : CacheEntry) (h : key ∈ l.map Prod.fst) :
    (dictSet l key e).map Prod.fst = l.map Prod.fst := by
  have hany : l.any (fun kv => kv.1 = key) = true := by
    obtain ⟨kv, hkv, hfst⟩ := List.mem_map.mp h
    exact List.any_eq_true.mpr ⟨kv, hkv, by simpa using hfst⟩
  unfold dictSet
  rw [if_pos hany, List.map_map]
  apply List.map_congr_left
  intro kv _
  by_cases hk : kv.1 = key
  · simp [Function.comp, hk]
  · simp [Function.comp, hk]

/-- A key not yet present is appended at the most-recently-used end. -/
theorem dictSet_map_fst_of_not_mem (l : List (String × CacheEntry)) (key : String)
    (e : CacheEntry) (h : key ∉ l.map Prod.fst) :
    (dictSet l key e).map Prod.fst = l.map Prod.fst ++ [key] := by
  have hany : l.any (fun kv => kv.1 = key) = false := by
    rw [Bool.eq_false_iff]
    intro hx
    obtain ⟨kv, hkv, hfst⟩ := List.any_eq_true.mp hx
    exact h (List.mem_map.mpr ⟨kv, hkv, by simpa using hfst⟩)
  unfold dictSet
  rw [hany]
  simp

/-- C5 (amended).  `set` evicts least-recently-used entries from the front
while the dict is at or above capacity, before inserting; a `set` on a key
already present overwrites the entry but KEEPS its recency position (it does
not become most-recently-used); a `set` of a fresh key appends it at the
most-recently-used end; and a successful `get` is the operation that
refreshes recency, moving its key to the most-recently-used end. -/
theorem cache_set_lru_eviction_and_in_place_overwrite (c : QueryCache)
    (q r : String) (sk : Option String) (now : ℚ) :
    (evictWhile c.cache c.max_size =
      c.cache.drop (c.cache.length + 1 - c.max_size)) ∧
    (makeKey q ∈ (evictWhile c.cache c.max_size).map Prod.fst →
      (cacheSet c q r sk now).cache.map Prod.fst =
        (evictWhile c.cache c.max_size).map Prod.fst) ∧
    (makeKey q ∉ (evictWhile c.cache c.max_size).map Prod.fst →
      (cacheSet c q r sk now).cache.map Prod.fst =
        (evictWhile c.cache c.max_size).map Prod.fst ++ [makeKey q]) ∧
    (∀ e, lookupEntry c.cache (makeKey q) = some e →
      ¬ c.ttl_seconds < now - e.created_at →
      (cacheGet c q now).2.cache.map Prod.fst =
        (eraseKey c.cache (makeKey q)).map Prod.fst ++ [makeKey q]) := by
  refine ⟨evictWhile_eq_drop c.cache c.max_size, ?_, ?_, ?_⟩
  · intro hmem
    exact dictSet_map_fst_of_mem _ _ _ hmem
  · intro hmem
    exact dictSet_map_fst_of_not_mem _ _ _ hmem
  · intro e hlook hnexp
    simp only [cacheGet, hlook, ratSub_eq]
    rw [if_neg hnexp]
    simp

/-- Witness for `cache_set_lru_eviction_and_in_place_overwrite` at the
concrete cache `[a, b]`: overwriting "a" keeps the key order, and a `get` on
"a" moves it to the most-recently-used end. -/
theorem cache_set_lru_eviction_witness :
    ((cacheSet c5cache3 "a" "x" none 4).cache.map Prod.fst =
      (evictWhile c5cache3.cache c5cache3.max_size).map Prod.fst) ∧
    ((cacheGet c5cache3 "a" 2).2.cache.map Prod.fst =
      (eraseKey c5cache3.cache (makeKey "a")).map Prod.fst ++ [makeKey "a"]) :=
  ⟨(cache_set_lru_eviction_and_in_place_overwrite c5cache3 "a" "x" none 4).2.1
      (by decide),
   (cache_set_lru_eviction_and_in_place_overwrite c5cache3 "a" "ra2" none 2).2.2.2
      { query := "a", response := "ra2", skill_name := none,
        created_at := 2, hit_count := 0 }
      (by decide)
      (by rw [show c5cache3.ttl_seconds = 3600 from rfl]; norm_num)⟩

/-! ## Semantic cache (`optimizations/cache.py`, class `SemanticCache`) -/

/-- A stored semantic-cache entry (the source stores plain dicts with these
fields; embedding coordinates are idealised as reals). -/
structure SemEntry where
  query : String
  response : String
  embedding : List ℝ
  skill_name : Option String
  created_at : ℚ
  hit_count : Nat

/-- The `SemanticCache` state. -/
structure SemanticCache where
  similarity_threshold : ℝ
  max_size : Nat
  ttl_seconds : ℚ
  entries : List SemEntry
  hits : Nat
  misses : Nat
  similarity_scores : List ℝ

/-- `SemanticCache.__init__`. -/
def semInit (threshold : ℝ) (maxSize : Nat) (ttl : ℚ) : SemanticCache :=
  { similarity_threshold := threshold, max_size := maxSize, ttl_seconds := ttl,
    entries := [], hits := 0, misses := 0, similarity_scores := [] }

/-- `SemanticCache._cosine_similarity`: 0 for vectors of different lengths
or when either magnitude is zero, else the normalised dot product. -/
noncomputable def cosineSim (a b : List ℝ) : ℝ :=
  if a.length ≠ b.length then 0
  else
    let dot := ((a.zip b).map (fun p => p.1 * p.2)).sum
    let ma := Real.sqrt ((a.map (fun x => x * x)).sum)
    let mb := Real.sqrt ((b.map (fun x => x * x)).sum)
    if ma = 0 ∨ mb = 0 then 0 else dot / (ma * mb)

/-- One step of the scan loop of `get_similar`: an expired entry is skipped
(and thereby dropped from the store); a live one is appended to the valid
list, and the best similarity/entry pair is updated on strict improvement. -/
noncomputable def scanStep (qe : List ℝ) (now ttl : ℚ)
    (acc : List SemEntry × ℝ × Option SemEntry) (e : SemEntry) :
    List SemEntry × ℝ × Option SemEntry :=
  if ttl < now - e.created_at then acc
  else
    let sim := cosineSim qe e.embedding
    if acc.2.1 < sim then (acc.1 ++ [e], sim, some e)
    else (acc.1 ++ [e], acc.2.1, acc.2.2)

/-- Python list slicing `l[-n:]`. -/
def takeLast (n : Nat) (l : List α) : List α := l.drop (l.length - n)

/-- `SemanticCache.get_similar(query, query_embedding)` at time `now`:
the optional fresh `CacheEntry` returned on a hit, and the successor state
(expired entries dropped, rolling similarity statistics updated, hit or miss
counted). -/
noncomputable def getSimilar (c : SemanticCache) (_query : String)
    (qe : List ℝ) (now : ℚ) : Option CacheEntry × SemanticCache :=
  if c.entries.isEmpty || qe.isEmpty then
    (none, { c with misses := c.misses + 1 })
  else
    let scan := c.entries.foldl (scanStep qe now c.ttl_seconds) ([], 0, none)
    let c1 : SemanticCache :=
      { c with entries := scan.1 }
    let c2 : SemanticCache :=
      if 0 < scan.2.1 then
        { c1 with similarity_scores :=
            takeLast 100 (c1.similarity_scores ++ [scan.2.1]) }
      else c1
    match scan.2.2 with
    | some bm =>
      if c.similarity_threshold ≤ scan.2.1 then
        (some { query := bm.query, response := bm.response,
                skill_name := bm.skill_name, created_at := bm.created_at,
                hit_count := bm.hit_count + 1 },
         { c2 with hits := c2.hits + 1 })
      else (none, { c2 with misses := c2.misses + 1 })
    | none => (none, { c2 with misses := c2.misses + 1 })

/-- The FIFO eviction loop of `SemanticCache.set`: while the store holds at
least `max_size` entries, drop the oldest-inserted (front) one. -/
def semEvictWhile : List SemEntry → Nat → List SemEntry
  | [], _ => []
  | e :: t, m => if m ≤ (e :: t).length then semEvictWhile t m else e :: t

/-- `SemanticCache.set(query, response, embedding, skill_name)` at `now`:
FIFO-evict, then append a fresh entry with `hit_count = 0`. -/
def semSet (c : SemanticCache) (query response : String) (embedding : List ℝ)
    (skill_name : Option String) (now : ℚ) : SemanticCache :=
  { c with entries := (semEvictWhile c.entries c.max_size ++
      [{ query := query, response := response, embedding := embedding,
         skill_name := skill_name, created_at := now, hit_count := 0 }]) }

/-- `SemanticCache.clear()`. -/
def semClear (c : SemanticCache) : SemanticCache := { c with entries := [] }

/-- The semantic-cache states reachable through its public interface. -/
inductive SemReachable : SemanticCache → Prop where
  | init (threshold : ℝ) (maxSize : Nat) (ttl : ℚ) :
      SemReachable (semInit threshold maxSize ttl)
  | set {c : SemanticCache} (q r : String) (emb : List ℝ)
      (sk : Option String) (now : ℚ) :
      SemReachable c → SemReachable (semSet c q r emb sk now)
  | lookup {c : SemanticCache} (q : String) (emb : List ℝ) (now : ℚ) :
      SemReachable c → SemReachable (getSimilar c q emb now).2
  | clear {c : SemanticCache} :
      SemReachable c → SemReachable (semClear c)

/-- The non-expired entries of a scan at time `now`. -/
def validAt (l : List SemEntry) (now ttl : ℚ) : List SemEntry :=
  l.filter (fun e => !decide (ttl < now - e.created_at))

theorem validAt_cons (e : SemEntry) (t : List SemEntry) (now ttl : ℚ) :
    validAt (e :: t) now ttl =
      if ttl < now - e.created_at then validAt t now ttl
      else e :: validAt t now ttl := by
  simp only [validAt, List.filter_cons]
  by_cases h : ttl < now - e.created_at
  · simp [h]
  · simp [h]

/-- The strict-improvement update of the scan loop computes a running
maximum. -/
theorem ite_lt_eq_max (a s : ℝ) : (if a < s then s else a) = max a s := by
  by_cases h : a < s
  · rw [if_pos h, max_eq_right h.le]
  · rw [if_neg h, max_eq_left (not_lt.mp h)]

/-- The scan's first component collects the valid entries, in order, behind
whatever the accumulator already held. -/
theorem scanFold_valid (qe : List ℝ) (now ttl : ℚ) (l : List SemEntry) :
    ∀ v (b : ℝ) (m : Option SemEntry),
      (l.foldl (scanStep qe now ttl) (v, b, m)).1 = v ++ validAt l now ttl := by
  induction l with
  | nil => intro v b m; simp [validAt]
  | cons e t ih =>
    intro v b m
    rw [List.foldl_cons, validAt_cons]
    by_cases h : ttl < now - e.created_at
    · rw [if_pos h, show scanStep qe now ttl (v, b, m) e = (v, b, m) from by
        simp [scanStep, h]]
      exact ih v b m
    · rw [if_neg h]
      by_cases hs : b < cosineSim qe e.embedding
      · rw [show scanStep qe now ttl (v, b, m) e =
            (v ++ [e], cosineSim qe e.embedding, some e) from by
          simp [scanStep, h, hs]]
        rw [ih (v ++ [e]) _ _, List.append_assoc, List.singleton_append]
      · rw [show scanStep qe now ttl (v, b, m) e = (v ++ [e], b, m) from by
          simp [scanStep, h, hs]]
        rw [ih (v ++ [e]) _ _, List.append_assoc, List.singleton_append]

/-- The scan's best similarity is a running maximum over the valid
entries. -/
theorem scanFold_best (qe : List ℝ) (now ttl : ℚ) (l : List SemEntry) :
    ∀ v (b : ℝ) (m : Option SemEntry),
      (l.foldl (scanStep qe now ttl) (v, b, m)).2.1 =
        (validAt l now ttl).foldl
          (fun acc e => max acc (cosineSim qe e.embedding)) b := by
  induction l with
  | nil => intro v b m; simp [validAt]
  | cons e t ih =>
    intro v b m
    rw [List.foldl_cons, validAt_cons]
    by_cases h : ttl < now - e.created_at
    · rw [if_pos h, show scanStep qe now ttl (v, b, m) e = (v, b, m) from by
        simp [scanStep, h]]
      exact ih v b m
    · rw [if_neg h, List.foldl_cons]
      by_cases hs : b < cosineSim qe e.embedding
      · rw [show scanStep qe now ttl (v, b, m) e =
            (v ++ [e], cosineSim qe e.embedding, some e) from by
          simp [scanStep, h, hs]]
        rw [ih _ _ _, max_eq_right hs.le]
      · rw [show scanStep qe now ttl (v, b, m) e = (v ++ [e], b, m) from by
          simp [scanStep, h, hs]]
        rw [ih _ _ _, max_eq_left (not_lt.mp hs)]

/-- The scan's best entry either never changes (and then the best similarity
is the seed) or it is a valid entry achieving the final best similarity,
strictly above the seed. -/
theorem scanFold_match (qe : List ℝ) (now ttl : ℚ) (l : List SemEntry) :
    ∀ v (b : ℝ) (m : Option SemEntry),
      ((l.foldl (scanStep qe now ttl) (v, b, m)).2.2 = m ∧
       (l.foldl (scanStep qe now ttl) (v, b, m)).2.1 = b) ∨
      (∃ bm ∈ validAt l now ttl,
        (l.foldl (scanStep qe now ttl) (v, b, m)).2.2 = some bm ∧
        (l.foldl (scanStep qe now ttl) (v, b, m)).2.1 =
          cosineSim qe bm.embedding ∧
        b < cosineSim qe bm.embedding) := by
  induction l with
  | nil => intro v b m; exact Or.inl ⟨rfl, rfl⟩
  | cons e t ih =>
    intro v b m
    rw [List.foldl_cons]
    by_cases h : ttl < now - e.created_at
    · rw [show scanStep qe now ttl (v, b, m) e = (v, b, m) from by
        simp [scanStep, h]]
      rcases ih v b m with h1 | ⟨bm, hbm, h1, h2, h3⟩
      · exact Or.inl h1
      · refine Or.inr ⟨bm, ?_, h1, h2, h3⟩
        rw [validAt_cons, if_pos h]
        exact hbm
    · by_cases hs : b < cosineSim qe e.embedding
      · rw [show scanStep qe now ttl (v, b, m) e =
            (v ++ [e], cosineSim qe e.embedding, some e) from by
          simp [scanStep, h, hs]]
        rcases ih (v ++ [e]) (cosineSim qe e.embedding) (some e) with
          ⟨h1, h2⟩ | ⟨bm, hbm, h1, h2, h3⟩
        · refine Or.inr ⟨e, ?_, h1, h2, hs⟩
          rw [validAt_cons, if_neg h]
          exact List.mem_cons_self e _
        · refine Or.inr ⟨bm, ?_, h1, h2, hs.trans h3⟩
          rw [validAt_cons, if_neg h]
          exact List.mem_cons_of_mem e hbm
      · rw [show scanStep qe now ttl (v, b, m) e = (v ++ [e], b, m) from by
          simp [scanStep, h, hs]]
        rcases ih (v ++ [e]) b m with h1 | ⟨bm, hbm, h1, h2, h3⟩
        · exact Or.inl h1
        · refine Or.inr ⟨bm, ?_, h1, h2, h3⟩
          rw [validAt_cons, if_neg h]
          exact List.mem_cons_of_mem e hbm

/-- A running maximum dominates its seed and every scanned similarity. -/
theorem foldl_max_spec (qe : List ℝ) (l : List SemEntry) :
    ∀ b : ℝ,
      b ≤ l.foldl (fun acc e => max acc (cosineSim qe e.embedding)) b ∧
      ∀ e ∈ l, cosineSim qe e.embedding ≤
        l.foldl (fun acc e => max acc (cosineSim qe e.embedding)) b := by
  induction l with
  | nil => intro b; exact ⟨le_refl b, by simp⟩
  | cons e t ih =>
    intro b
    rw [List.foldl_cons]
    constructor
    · exact le_trans (le_max_left b _) (ih _).1
    · intro e2 he2
      rcases List.mem_cons.mp he2 with rfl | he2
      · exact le_trans (le_max_right b _) (ih _).1
      · exact (ih _).2 e2 he2

/-- The successor state of a non-degenerate `get_similar` stores exactly the
non-expired entries. -/
theorem getSimilar_state_entries (c : SemanticCache) (q : String)
    (qe : List ℝ) (now : ℚ)
    (hcase : (c.entries.isEmpty || qe.isEmpty) = false) :
    (getSimilar c q qe now).2.entries = validAt c.entries now c.ttl_seconds := by
  have hv := scanFold_valid qe now c.ttl_seconds c.entries [] 0 none
  simp only [getSimilar, hcase]
  rw [if_neg Bool.false_ne_true]
  split
  · split
    · simp [apply_ite SemanticCache.entries, hv]
    · simp [apply_ite SemanticCache.entries, hv]
  · simp [apply_ite SemanticCache.entries, hv]

/-- `get_similar` never invents entries: every stored entry of the successor
state was already stored. -/
theorem getSimilar_entries_subset (c : SemanticCache) (q : String)
    (qe : List ℝ) (now : ℚ) :
    ∀ e ∈ (getSimilar c q qe now).2.entries, e ∈ c.entries := by
  intro e he
  by_cases hcase : (c.entries.isEmpty || qe.isEmpty) = true
  · unfold getSimilar at he
    rw [if_pos hcase] at he
    exact he
  · rw [getSimilar_state_entries c q qe now (by simpa using hcase)] at he
    exact List.mem_of_mem_filter he

/-- Characterisation of a non-degenerate `get_similar` lookup: it is a hit
exactly when some non-expired entry has strictly positive similarity and the
running maximum of the similarities reaches the threshold; and the value
returned on a hit is built from a non-expired entry achieving that maximum,
with its hit counter incremented. -/
theorem getSimilar_spec (c : SemanticCache) (q : String) (qe : List ℝ)
    (now : ℚ) (hcase : (c.entries.isEmpty || qe.isEmpty) = false) :
    ((getSimilar c q qe now).1.isSome ↔
      ((∃ e ∈ validAt c.entries now c.ttl_seconds,
          0 < cosineSim qe e.embedding) ∧
        c.similarity_threshold ≤
          (validAt c.entries now c.ttl_seconds).foldl
            (fun acc e => max acc (cosineSim qe e.embedding)) 0)) ∧
    (∀ out, (getSimilar c q qe now).1 = some out →
      ∃ bm ∈ validAt c.entries now c.ttl_seconds,
        cosineSim qe bm.embedding =
          (validAt c.entries now c.ttl_seconds).foldl
            (fun acc e => max acc (cosineSim qe e.embedding)) 0 ∧
        out = { query := bm.query, response := bm.response,
                skill_name := bm.skill_name, created_at := bm.created_at,
                hit_count := bm.hit_count + 1 }) := by
  have hb := scanFold_best qe now c.ttl_seconds c.entries [] 0 none
  rcases scanFold_match qe now c.ttl_seconds c.entries [] 0 none with
    ⟨hm, hb0⟩ | ⟨bm, hbm, hm, hsim, hpos⟩
  · -- the best entry never updated: every valid similarity is ≤ 0, miss
    have hres : (getSimilar c q qe now).1 = none := by
      simp only [getSimilar, hcase]
      rw [if_neg Bool.false_ne_true, hm]
    constructor
    · rw [hres]
      simp only [Option.isSome_none, Bool.false_eq_true, false_iff, not_and]
      rintro ⟨e, he, hposs⟩
      exfalso
      have hle := (foldl_max_spec qe (validAt c.entries now c.ttl_seconds) 0).2 e he
      rw [← hb, hb0] at hle
      exact absurd (lt_of_lt_of_le hposs hle) (lt_irrefl 0)
    · intro out hout
      rw [hres] at hout
      cases hout
  · -- the best entry is a valid entry achieving the maximum
    have hbest : cosineSim qe bm.embedding =
        (validAt c.entries now c.ttl_seconds).foldl
          (fun acc e => max acc (cosineSim qe e.embedding)) 0 := by
      rw [← hb, hsim]
    by_cases hthr : c.similarity_threshold ≤
        (c.entries.foldl (scanStep qe now c.ttl_seconds) ([], 0, none)).2.1
    · have hres : (getSimilar c q qe now).1 =
          some { query := bm.query, response := bm.response,
                 skill_name := bm.skill_name, created_at := bm.created_at,
                 hit_count := bm.hit_count + 1 } := by
        simp only [getSimilar, hcase]
        rw [if_neg Bool.false_ne_true, hm]
        simp only [if_pos hthr]
      constructor
      · rw [hres]
        simp only [Option.isSome_some, true_iff]
        exact ⟨⟨bm, hbm, hpos⟩, by rw [← hb]; exact hthr⟩
      · intro out hout
        rw [hres] at hout
        exact ⟨bm, hbm, hbest, (Option.some.inj hout).symm⟩
    · have hres : (getSimilar c q qe now).1 = none := by
        simp only [getSimilar, hcase]
        rw [if_neg Bool.false_ne_true, hm]
        simp only [if_neg hthr]
      constructor
      · rw [hres]
        simp only [Option.isSome_none, Bool.false_eq_true, false_iff, not_and]
        intro _
        rw [← hb]
        exact fun hx => hthr hx
      · intro out hout
        rw [hres] at hout
        cases hout

theorem cosineSim_basis_same : cosineSim [1, 0] [1, 0] = (1:ℝ) := by
  simp only [cosineSim, List.length_cons, List.length_nil, ne_eq]
  norm_num [Real.sqrt_one]

theorem cosineSim_basis_orth : cosineSim [0, 1] [1, 0] = (0:ℝ) := by
  simp only [cosineSim, List.length_cons, List.length_nil, ne_eq]
  norm_num [Real.sqrt_one]

/-- A stored entry whose embedding is the first basis vector. -/
noncomputable def c6entry : SemEntry :=
  { query := "q0", response := "r0", embedding := [1, 0], skill_name := none,
    created_at := 0, hit_count := 0 }

/-- A semantic cache with `similarity_threshold = 0` holding `c6entry`. -/
noncomputable def c6state : SemanticCache :=
  { similarity_threshold := 0, max_size := 200, ttl_seconds := 7200,
    entries := [c6entry], hits := 0, misses := 0, similarity_scores := [] }

/-- Counterexample to C6 as stated: with threshold 0 and one non-expired
entry orthogonal to the query embedding, the maximum cosine similarity (0)
reaches the threshold, yet `get_similar` misses (the loop only tracks
entries whose similarity strictly exceeds the running best, which starts at
0, so no best entry is ever recorded). -/
theorem semantic_threshold_counterexample :
    ¬ (c6state.ttl_seconds < 1 - c6entry.created_at) ∧
    c6state.similarity_threshold ≤ cosineSim [0, 1] c6entry.embedding ∧
    (getSimilar c6state "q" [0, 1] 1).1 = none := by
  refine ⟨?_, ?_, ?_⟩
  · rw [show c6state.ttl_seconds = 7200 from rfl,
      show c6entry.created_at = 0 from rfl]
    norm_num
  · rw [show c6entry.embedding = [1, 0] from rfl, cosineSim_basis_orth,
      show c6state.similarity_threshold = 0 from rfl]
  · simp only [getSimilar]
    rw [show (c6state.entries.isEmpty || ([0, 1] : List ℝ).isEmpty) = false from rfl]
    rw [if_neg Bool.false_ne_true]
    rw [show c6state.entries = [c6entry] from rfl]
    simp only [List.foldl_cons, List.foldl_nil, scanStep]
    rw [show c6state.ttl_seconds = 7200 from rfl,
      show c6entry.created_at = 0 from rfl]
    rw [if_neg (show ¬ ((7200:ℚ) < 1 - 0) from by norm_num)]
    rw [show c6entry.embedding = [1, 0] from rfl, cosineSim_basis_orth]
    rw [if_neg (show ¬ ((0:ℝ) < 0) from by norm_num)]

/-- C6 (amended).  For every semantic-cache state and non-empty query
embedding (and non-empty store), `get_similar` returns an entry iff some
non-expired entry has strictly positive cosine similarity AND the maximum
of the similarities (as accumulated by the scan, seeded with 0) reaches
`similarity_threshold`; when the best similarity is below the threshold —
or no entry has positive similarity, even if the maximum reaches a
non-positive threshold — it is a miss; and on a hit the returned entry is
built from a non-expired entry achieving the maximum similarity, with its
hit counter incremented. -/
theorem semantic_hit_iff_max_reaches_threshold (c : SemanticCache)
    (q : String) (qe : List ℝ) (now : ℚ)
    (hcase : (c.entries.isEmpty || qe.isEmpty) = false) :
    ((getSimilar c q qe now).1.isSome ↔
      ((∃ e ∈ validAt c.entries now c.ttl_seconds,
          0 < cosineSim qe e.embedding) ∧
        c.similarity_threshold ≤
          (validAt c.entries now c.ttl_seconds).foldl
            (fun acc e => max acc (cosineSim qe e.embedding)) 0)) ∧
    (∀ out, (getSimilar c q qe now).1 = some out →
      ∃ bm ∈ validAt c.entries now c.ttl_seconds,
        cosineSim qe bm.embedding =
          (validAt c.entries now c.ttl_seconds).foldl
            (fun acc e => max acc (cosineSim qe e.embedding)) 0 ∧
        out = { query := bm.query, response := bm.response,
                skill_name := bm.skill_name, created_at := bm.created_at,
                hit_count := bm.hit_count + 1 }) :=
  getSimilar_spec c q qe now hcase

/-- A reachable one-entry semantic cache: threshold 1/2, one `set`. -/
noncomputable def semWitState : SemanticCache :=
  semSet (semInit (1/2) 200 7200) "q0" "r0" [1, 0] none 0

/-- Witness for `semantic_hit_iff_max_reaches_threshold` at a concrete
reachable state. -/
theorem semantic_hit_iff_witness :
    ((getSimilar semWitState "q1" [1, 0] 1).1.isSome ↔
      ((∃ e ∈ validAt semWitState.entries 1 semWitState.ttl_seconds,
          0 < cosineSim [1, 0] e.embedding) ∧
        semWitState.similarity_threshold ≤
          (validAt semWitState.entries 1 semWitState.ttl_seconds).foldl
            (fun acc e => max acc (cosineSim [1, 0] e.embedding)) 0)) ∧
    (∀ out, (getSimilar semWitState "q1" [1, 0] 1).1 = some out →
      ∃ bm ∈ validAt semWitState.entries 1 semWitState.ttl_seconds,
        cosineSim [1, 0] bm.embedding =
          (validAt semWitState.entries 1 semWitState.ttl_seconds).foldl
            (fun acc e => max acc (cosineSim [1, 0] e.embedding)) 0 ∧
        out = { query := bm.query, response := bm.response,
                skill_name := bm.skill_name, created_at := bm.created_at,
                hit_count := bm.hit_count + 1 }) :=
  semantic_hit_iff_max_reaches_threshold semWitState "q1" [1, 0] 1 rfl

/-- The evaluation of `get_similar` on `semWitState`: a hit returning the
stored entry's data with hit counter 1. -/
theorem getSimilar_semWitState_eval :
    (getSimilar semWitState "q1" [1, 0] 1).1 =
      some { query := "q0", response := "r0", skill_name := none,
             created_at := 0, hit_count := 0 + 1 } := by
  simp only [getSimilar]
  rw [show (semWitState.entries.isEmpty || ([1, 0] : List ℝ).isEmpty) = false from rfl]
  rw [if_neg Bool.false_ne_true]
  rw [show semWitState.entries =
    [{ query := "q0", response := "r0", embedding := [1, 0], skill_name := none,
       created_at := 0, hit_count := 0 }] from rfl]
  simp only [List.foldl_cons, List.foldl_nil, scanStep]
  rw [show semWitState.ttl_seconds = 7200 from rfl]
  rw [if_neg (show ¬ ((7200:ℚ) < 1 - 0) from by norm_num)]
  simp only [cosineSim_basis_same]
  rw [if_pos (show (0:ℝ) < 1 from by norm_num)]
  rw [show semWitState.similarity_threshold = 1/2 from rfl]
  simp only [Prod.fst, Prod.snd]
  rw [if_pos (show (1:ℝ)/2 ≤ 1 from by norm_num)]

/-- C10.  In every reachable semantic-cache state, every stored entry's hit
counter is 0 (`set` stores 0 and `get_similar` never writes back), so every
hit — no matter how many hits preceded it — returns an entry value whose
`hit_count` is exactly 1; hit counts never accumulate. -/
theorem semantic_hit_count_is_always_one :
    (∀ c, SemReachable c → ∀ e ∈ c.entries, e.hit_count = 0) ∧
    (∀ (c : SemanticCache) (q : String) (qe : List ℝ) (now : ℚ) out,
      SemReachable c → (getSimilar c q qe now).1 = some out →
      out.hit_count = 1) := by
  have hdrop : ∀ (l : List SemEntry) (m : Nat),
      semEvictWhile l m = l.drop (l.length + 1 - m) := by
    intro l m
    induction l with
    | nil => simp [semEvictWhile]
    | cons e t ih =>
      simp only [semEvictWhile, List.length_cons]
      by_cases h : m ≤ t.length + 1
      · rw [if_pos h, ih]
        have he : t.length + 1 + 1 - m = (t.length + 1 - m) + 1 := by omega
        rw [he, List.drop_succ_cons]
      · rw [if_neg h]
        have he : t.length + 1 + 1 - m = 0 := by omega
        rw [he, List.drop_zero]
  have hinv : ∀ c, SemReachable c → ∀ e ∈ c.entries, e.hit_count = 0 := by
    intro c hre
    induction hre with
    | init th ms ttl => intro e he; simp [semInit] at he
    | set q r emb sk now hre ih =>
      intro e he
      simp only [semSet] at he
      rcases List.mem_append.mp he with h1 | h2
      · rw [hdrop] at h1
        exact ih e (List.drop_subset _ _ h1)
      · rw [List.mem_singleton.mp h2]
    | lookup q emb now hre ih =>
      intro e he
      exact ih e (getSimilar_entries_subset _ _ _ _ e he)
    | clear hre ih => intro e he; simp [semClear] at he
  refine ⟨hinv, ?_⟩
  intro c q qe now out hre hout
  by_cases hcase : (c.entries.isEmpty || qe.isEmpty) = true
  · exfalso
    unfold getSimilar at hout
    rw [if_pos hcase] at hout
    cases hout
  · obtain ⟨bm, hbm, -, hout_eq⟩ :=
      (getSimilar_spec c q qe now (by simpa using hcase)).2 out hout
    have hz : bm.hit_count = 0 := hinv c hre bm (List.mem_of_mem_filter hbm)
    rw [hout_eq]
    simp [hz]

/-- Witness for `semantic_hit_count_is_always_one`: the concrete reachable
state `semWitState` yields a hit whose counter is 1. -/
theorem semantic_hit_count_witness :
    ∃ out, (getSimilar semWitState "q1" [1, 0] 1).1 = some out ∧
      out.hit_count = 1 :=
  ⟨_, getSimilar_semWitState_eval,
    (semantic_hit_count_is_always_one).2 semWitState "q1" [1, 0] 1 _
      (SemReachable.set "q0" "r0" [1, 0] none 0
        (SemReachable.init (1/2) 200 7200))
      getSimilar_semWitState_eval⟩

/-! ## Result truncation (`optimizations/truncation.py`) -/

/-- JSON-like values.  Numbers are restricted to integers: none of the
verified properties depends on float formatting, and the repository's tool
results round-trip integers exactly. -/
inductive JVal where
  | null
  | bool (b : Bool)
  | int (n : Int)
  | str (s : PyStr)
  | arr (l : List JVal)
  | obj (m : List (String × JVal))

/-- Decimal rendering of an integer (Python `str(int)`). -/
def intStr (n : Int) : PyStr :=
  match n with
  | .ofNat m => Nat.toDigits 10 m
  | .negSucc m => '-' :: Nat.toDigits 10 (m + 1)

/-- A lower-case hexadecimal digit. -/
def hexDigit (n : Nat) : Char :=
  if n < 10 then Char.ofNat ('0'.toNat + n) else Char.ofNat ('a'.toNat + n - 10)

/-- Four lower-case hexadecimal digits. -/
def hex4 (n : Nat) : PyStr :=
  [hexDigit (n / 4096 % 16), hexDigit (n / 256 % 16),
   hexDigit (n / 16 % 16), hexDigit (n % 16)]

/-- `json.dumps` escaping of one character (`ensure_ascii=True`): quote,
backslash and the short control escapes, `\uXXXX` for other control and
non-ASCII characters (surrogate pairs beyond the BMP). -/
def escCharJson (c : Char) : PyStr :=
  if c = '"' then ['\\', '"']
  else if c = '\\' then ['\\', '\\']
  else if c = '\n' then ['\\', 'n']
  else if c = '\t' then ['\\', 't']
  else if c = '\r' then ['\\', 'r']
  else if c = '\x08' then ['\\', 'b']
  else if c = '\x0c' then ['\\', 'f']
  else if c.toNat < 0x20 then '\\' :: 'u' :: hex4 c.toNat
  else if c.toNat < 0x80 then [c]
  else if c.toNat ≤ 0xffff then '\\' :: 'u' :: hex4 c.toNat
  else
    '\\' :: 'u' :: hex4 (0xd800 + (c.toNat - 0x10000) / 0x400) ++
      '\\' :: 'u' :: hex4 (0xdc00 + (c.toNat - 0x10000) % 0x400)

/-- A JSON string literal. -/
def jsonQuote (s : PyStr) : PyStr := '"' :: s.flatMap escCharJson ++ ['"']

/-- Python `repr` escaping of one character for quote character `q`
(backslash, the quote, the short control escapes, `\xXX` for other control
characters and DEL; other characters — including non-ASCII, which Python
keeps when printable — pass through). -/
def escCharRepr (q c : Char) : PyStr :=
  if c = '\\' then ['\\', '\\']
  else if c = q then ['\\', q]
  else if c = '\n' then ['\\', 'n']
  else if c = '\t' then ['\\', 't']
  else if c = '\r' then ['\\', 'r']
  else if c.toNat < 0x20 || c.toNat = 0x7f then
    '\\' :: 'x' :: [hexDigit (c.toNat / 16 % 16), hexDigit (c.toNat % 16)]
  else [c]

/-- Python `repr` of a string: single quotes, unless the string holds a
single quote and no double quote. -/
def pyReprStr (s : PyStr) : PyStr :=
  let q := if s.contains '\x27' && !(s.contains '"') then '"' else '\x27'
  q :: s.flatMap (escCharRepr q) ++ [q]

/-- `", ".join(...)`-style joining. -/
def joinSep (sep : PyStr) : List PyStr → PyStr
  | [] => []
  | [x] => x
  | x :: y :: t => x ++ sep ++ joinSep sep (y :: t)

/-- Python `repr` of a JSON-like value (defined through the nested recursor
so that the kernel can evaluate it). -/
noncomputable def pyRepr (v : JVal) : PyStr :=
  @JVal.rec (fun _ => PyStr) (fun _ => List PyStr) (fun _ => List PyStr)
    (fun _ => PyStr)
    ("None".data)
    (fun b => if b then "True".data else "False".data)
    (fun n => intStr n)
    (fun s => pyReprStr s)
    (fun _ ih => '[' :: joinSep ", ".data ih ++ [']'])
    (fun _ ih => '\x7b' :: joinSep ", ".data ih ++ ['\x7d'])
    []
    (fun _ _ ihh iht => ihh :: iht)
    []
    (fun _ _ ihh iht => ihh :: iht)
    (fun k _ ihv => pyReprStr k.data ++ ": ".data ++ ihv)
    v

/-- Python `str()` of a JSON-like value (`str` of a string is itself; other
values print as their `repr`). -/
noncomputable def pyToStr (v : JVal) : PyStr :=
  match v with
  | .str s => s
  | v => pyRepr v

/-- `json.dumps(..., default=str)` with its default separators. -/
noncomputable def jsonDumps (v : JVal) : PyStr :=
  @JVal.rec (fun _ => PyStr) (fun _ => List PyStr) (fun _ => List PyStr)
    (fun _ => PyStr)
    ("null".data)
    (fun b => if b then "true".data else "false".data)
    (fun n => intStr n)
    (fun s => jsonQuote s)
    (fun _ ih => '[' :: joinSep ", ".data ih ++ [']'])
    (fun _ ih => '\x7b' :: joinSep ", ".data ih ++ ['\x7d'])
    []
    (fun _ _ ihh iht => ihh :: iht)
    []
    (fun _ _ ihh iht => ihh :: iht)
    (fun k _ ihv => jsonQuote k.data ++ ": ".data ++ ihv)
    v

/-- The serialised entries of an object, as `jsonDumps` produces them. -/
noncomputable def jsonDumpsEntries (m : List (String × JVal)) : List PyStr :=
  m.map (fun kv => jsonQuote kv.1.data ++ ": ".data ++ jsonDumps kv.2)

/-- The list-level computation of `jsonDumps` (the auxiliary nested
recursor applied to the same premises). -/
noncomputable def jsonDumpsEntriesRec (m : List (String × JVal)) : List PyStr :=
  @JVal.rec_2 (fun _ => PyStr) (fun _ => List PyStr) (fun _ => List PyStr)
    (fun _ => PyStr)
    ("null".data)
    (fun b => if b then "true".data else "false".data)
    (fun n => intStr n)
    (fun s => jsonQuote s)
    (fun _ ih => '[' :: joinSep ", ".data ih ++ [']'])
    (fun _ ih => '\x7b' :: joinSep ", ".data ih ++ ['\x7d'])
    []
    (fun _ _ ihh iht => ihh :: iht)
    []
    (fun _ _ ihh iht => ihh :: iht)
    (fun k _ ihv => jsonQuote k.data ++ ": ".data ++ ihv)
    m

theorem jsonDumpsEntriesRec_eq (m : List (String × JVal)) :
    jsonDumpsEntriesRec m = jsonDumpsEntries m := by
  induction m with
  | nil => rfl
  | cons kv t ih =>
    obtain ⟨k, v⟩ := kv
    simp only [jsonDumpsEntries, List.map_cons] at ih ⊢
    rw [← ih]
    rfl

theorem jsonDumps_obj (m : List (String × JVal)) :
    jsonDumps (.obj m) =
      '\x7b' :: joinSep ", ".data (jsonDumpsEntries m) ++ ['\x7d'] := by
  rw [← jsonDumpsEntriesRec_eq]
  rfl

/-- `value[:500] + "..."` capping of long strings, applied to preserved
values in the first pass of `_truncate_dict` (non-strings pass through). -/
noncomputable def cap500 (v : JVal) : JVal :=
  match v with
  | .str s => if 500 < s.length then .str (s.take 500 ++ "...".data) else .str s
  | v => v

/-- Lookup in a JSON object (Python `data[key]` / `key in data`). -/
def jlookup (data : List (String × JVal)) (k : String) : Option JVal :=
  match data.find? (fun kv => kv.1 = k) with
  | some kv => some kv.2
  | none => none

/-- Python dict assignment `d[k] = v`: overwrite in place, else append. -/
def jdictSet : List (String × JVal) → String → JVal → List (String × JVal)
  | [], k, v => [(k, v)]
  | (k0, v0) :: t, k, v =>
    if k0 = k then (k, v) :: t else (k0, v0) :: jdictSet t k v

/-- First pass of `_truncate_dict`: every preserve-listed key present in the
input is copied into the result (long strings capped at 500 characters) and
the character budget is charged `len(str(value)) + len(key) + 10`. -/
noncomputable def truncDictPass1 (data : List (String × JVal)) :
    List String → List (String × JVal) → Int → List (String × JVal) × Int
  | [], res, budget => (res, budget)
  | k :: t, res, budget =>
    match jlookup data k with
    | none => truncDictPass1 data t res budget
    | some v =>
      truncDictPass1 data t (jdictSet res k (cap500 v))
        (budget - (((pyToStr (cap500 v)).length : Int) + (k.length : Int) + 10))

/-- Second pass of `_truncate_dict`: remaining keys are added while the
budget lasts; once the budget drops to 200 or below, a `_more_fields`
marker replaces whatever was not yet included. -/
noncomputable def truncDictPass2 (rec : JVal → Int → Nat → JVal)
    (depth : Nat) (dlen : Nat) :
    List (String × JVal) → List (String × JVal) → Int → List (String × JVal)
  | [], res, _ => res
  | (k, v) :: t, res, budget =>
    if res.any (fun kv => kv.1 = k) then truncDictPass2 rec depth dlen t res budget
    else if budget ≤ 200 then
      let remaining : Int := (dlen : Int) - (res.length : Int)
      if 0 < remaining then jdictSet res "_more_fields" (.int remaining) else res
    else
      let tv := rec v (if budget < 500 then budget else 500) (depth + 1)
      let vlen : Int := ((pyToStr tv).length : Int) + (k.length : Int) + 10
      if vlen < budget then
        truncDictPass2 rec depth dlen t (jdictSet res k tv) (budget - vlen)
      else truncDictPass2 rec depth dlen t res budget

/-- `_truncate_dict`. -/
noncomputable def truncDict (rec : JVal → Int → Nat → JVal)
    (data : List (String × JVal)) (max_chars : Int) (pk : List String)
    (depth : Nat) : List (String × JVal) :=
  let p1 := truncDictPass1 data pk [] max_chars
  truncDictPass2 rec depth data.length data p1.1 p1.2

/-- `_truncate_list`: lists of at most five items are truncated item by
item; longer lists keep at most eight items and, when something was cut, are
wrapped into an `items`/`total_count`/`showing` object. -/
noncomputable def truncList (rec : JVal → Int → Nat → JVal)
    (data : List JVal) (max_chars : Int) (depth : Nat) : JVal :=
  if data.isEmpty then .arr []
  else
    let total := data.length
    if total ≤ 5 then
      .arr (data.map (fun item =>
        rec item (Int.fdiv max_chars (if (total : Int) < 1 then 1 else (total : Int))) (depth + 1)))
    else
      let maxItems := if total < 8 then total else 8
      let per := Int.fdiv (max_chars - 100) (maxItems : Int)
      let truncated := (data.take maxItems).map (fun item => rec item per (depth + 1))
      if maxItems < total then
        .obj [("items", .arr truncated), ("total_count", .int (total : Int)),
              ("showing", .int (maxItems : Int))]
      else .arr truncated

/-- `_truncate_value`.  The first argument is recursion fuel: Python's
recursion is bounded because the depth check collapses anything below depth
4, so fuel 6 suffices from depth 0 (each recursive call consumes one unit of
fuel and raises the depth by one). -/
noncomputable def truncValue : Nat → JVal → Int → List String → Nat → JVal
  | 0, _, _, _, _ => .str "[nested data]".data
  | fuel + 1, v, max_chars, pk, depth =>
    if depth > 4 then .str "[nested data]".data
    else
      match v with
      | .obj m =>
          .obj (truncDict (fun w mc d => truncValue fuel w mc pk d) m max_chars pk depth)
      | .arr l => truncList (fun w mc d => truncValue fuel w mc pk d) l max_chars depth
      | .str s => if 300 < s.length then .str (s.take 300 ++ "...".data) else .str s
      | v => v

/-- The verbatim `CRITICAL_KEYS` list. -/
def CRITICAL_KEYS : List String :=
  ["product_name", "product_id", "name", "id", "sku",
   "category", "region", "status", "severity",
   "days_of_supply", "units_on_hand", "units_available",
   "insight_type", "title", "description", "message",
   "revenue", "units_sold", "transaction_count", "transactions",
   "units", "avg_price_per_unit", "pct_of_total",
   "dealer_name", "state"]

/-- The verbatim `SUMMARY_KEYS` list. -/
def SUMMARY_KEYS : List String :=
  ["total", "count", "summary", "status", "error",
   "total_revenue", "total_units", "insight_count",
   "total_products", "critical_count", "warning_count",
   "total_transactions", "periods"]

/-- The always-preserve key list of `truncate_tool_result`.  A `None` or
empty caller list (both falsy in Python) keeps `CRITICAL_KEYS +
SUMMARY_KEYS`; otherwise Python builds `list(set(...))`, whose order is an
implementation detail of hashing — it is modelled as first-occurrence
deduplication, which is faithful up to that unspecified order (none of the
verified properties depends on the order, only on membership). -/
def allPreserveKeys (preserve_keys : Option (List String)) : List String :=
  match preserve_keys with
  | none => CRITICAL_KEYS ++ SUMMARY_KEYS
  | some pk =>
    if pk.isEmpty then CRITICAL_KEYS ++ SUMMARY_KEYS
    else dedupKF (CRITICAL_KEYS ++ SUMMARY_KEYS ++ pk)

/-- `truncate_tool_result` on an already-parsed (mapping or list) input:
truncate the value, serialise it, and hard-cut the serialisation if it
still exceeds `max_chars`.  (The plain-string input branch, which goes
through `json.loads` first, is outside this model.) -/
noncomputable def truncateToolResult (x : JVal) (max_chars : Int)
    (preserve_keys : Option (List String)) : PyStr :=
  let apk := allPreserveKeys preserve_keys
  let output := jsonDumps (truncValue 6 x max_chars apk 0)
  if (output.length : Int) > max_chars then
    pySliceTo output (max_chars - 50) ++ "... [truncated for length]\"\x7d".data
  else output

/-- Substring test (Python `needle in haystack`). -/
def containsSub [DecidableEq α] : List α → List α → Bool
  | needle, [] => needle.isEmpty
  | needle, h :: t => needle.isPrefixOf (h :: t) || containsSub needle t


theorem jlookup_cons (k0 : String) (v0 : JVal) (t : List (String × JVal)) (k : String) :
    jlookup ((k0, v0) :: t) k = if k0 = k then some v0 else jlookup t k := by
  by_cases h : k0 = k
  · simp [jlookup, List.find?, h]
  · simp [jlookup, List.find?, h]

theorem jlookup_jdictSet_eq (res : List (String × JVal)) (k : String) (v : JVal) :
    jlookup (jdictSet res k v) k = some v := by
  induction res with
  | nil => simp [jdictSet, jlookup_cons]
  | cons kv t ih =>
    obtain ⟨k0, v0⟩ := kv
    by_cases h : k0 = k
    · simp [jdictSet, h, jlookup_cons]
    · simp [jdictSet, h, jlookup_cons, ih]

theorem jlookup_jdictSet_ne (res : List (String × JVal)) (k0 k : String) (v : JVal)
    (h : k0 ≠ k) : jlookup (jdictSet res k0 v) k = jlookup res k := by
  induction res with
  | nil => simp [jdictSet, jlookup_cons, h]
  | cons kv t ih =>
    obtain ⟨k1, v1⟩ := kv
    by_cases h1 : k1 = k0
    · subst h1
      simp [jdictSet, jlookup_cons, h]
    · simp [jdictSet, h1, jlookup_cons, ih]

theorem truncDictPass1_lookup_not_mem (data : List (String × JVal)) (k : String)
    (pk : List String) (hk : k ∉ pk) :
    ∀ res budget, jlookup (truncDictPass1 data pk res budget).1 k = jlookup res k := by
  induction pk with
  | nil => intro res budget; rfl
  | cons k0 t ih =>
    intro res budget
    have hk0 : k0 ≠ k := fun h => hk (h ▸ List.mem_cons_self k0 t)
    have hkt : k ∉ t := fun h => hk (List.mem_cons_of_mem k0 h)
    cases hfind : jlookup data k0 with
    | none =>
      simp only [truncDictPass1, hfind]
      exact ih hkt res budget
    | some v =>
      simp only [truncDictPass1, hfind]
      rw [ih hkt, jlookup_jdictSet_ne res k0 k (cap500 v) hk0]

theorem truncDictPass1_lookup_mem (data : List (String × JVal)) (k : String) (v : JVal)
    (pk : List String) (hk : k ∈ pk) (hv : jlookup data k = some v) :
    ∀ res budget, jlookup (truncDictPass1 data pk res budget).1 k = some (cap500 v) := by
  induction pk with
  | nil => cases hk
  | cons k0 t ih =>
    intro res budget
    by_cases hkt : k ∈ t
    · cases hfind : jlookup data k0 with
      | none => simp only [truncDictPass1, hfind]; exact ih hkt _ _
      | some w => simp only [truncDictPass1, hfind]; exact ih hkt _ _
    · have hk0 : k0 = k := by
        rcases List.mem_cons.mp hk with h | h
        · exact h.symm
        · exact absurd h hkt
      subst hk0
      simp only [truncDictPass1, hv]
      rw [truncDictPass1_lookup_not_mem _ _ _ hkt, jlookup_jdictSet_eq]

theorem jlookup_any (res : List (String × JVal)) (k : String) (w : JVal)
    (h : jlookup res k = some w) : res.any (fun kv => kv.1 = k) = true := by
  simp only [jlookup] at h
  cases hfind : res.find? (fun kv => kv.1 = k) with
  | none => rw [hfind] at h; cases h
  | some kv =>
    have hmem := List.mem_of_find?_eq_some hfind
    have hp := List.find?_some hfind
    exact List.any_eq_true.mpr ⟨kv, hmem, hp⟩

theorem truncDictPass2_lookup_preserved (rec : JVal → Int → Nat → JVal)
    (depth dlen : Nat) (k : String) (w : JVal) (hkm : k ≠ "_more_fields") :
    ∀ t res budget, jlookup res k = some w →
      jlookup (truncDictPass2 rec depth dlen t res budget) k = some w := by
  intro t
  induction t with
  | nil => intro res budget h; exact h
  | cons kv t ih =>
    intro res budget h
    obtain ⟨k0, v0⟩ := kv
    by_cases hin : res.any (fun kv => kv.1 = k0) = true
    · simp only [truncDictPass2, if_pos hin]
      exact ih res budget h
    · simp only [truncDictPass2, if_neg hin]
      by_cases hb : budget ≤ 200
      · rw [if_pos hb]
        by_cases hr : (0 : Int) < (dlen : Int) - (res.length : Int)
        · rw [if_pos hr, jlookup_jdictSet_ne _ _ _ _ (Ne.symm hkm)]
          exact h
        · rw [if_neg hr]; exact h
      · rw [if_neg hb]
        have hk0 : k0 ≠ k := by
          intro he
          exact hin (he ▸ jlookup_any res k w h)
        by_cases hv : ((pyToStr (rec v0 (if budget < 500 then budget else 500) (depth + 1))).length : Int)
            + (k0.length : Int) + 10 < budget
        · rw [if_pos hv]
          exact ih _ _ (by rw [jlookup_jdictSet_ne _ _ _ _ hk0]; exact h)
        · rw [if_neg hv]
          exact ih res budget h

theorem jlookup_mem_of_eq_some (res : List (String × JVal)) (k : String) (w : JVal)
    (h : jlookup res k = some w) : (k, w) ∈ res := by
  simp only [jlookup] at h
  cases hfind : res.find? (fun kv => kv.1 = k) with
  | none => rw [hfind] at h; cases h
  | some kv =>
    rw [hfind] at h
    have hmem := List.mem_of_find?_eq_some hfind
    have hp := List.find?_some hfind
    have h1 : kv.1 = k := by simpa using hp
    have h2 : kv.2 = w := by injection h
    have : kv = (k, w) := Prod.ext h1 h2
    exact this ▸ hmem

theorem joinSep_infix_of_mem (sep : PyStr) (x : PyStr) :
    ∀ l : List PyStr, x ∈ l → x <:+: joinSep sep l := by
  intro l
  induction l with
  | nil => intro h; cases h
  | cons y t ih =>
    intro h
    cases t with
    | nil =>
      rcases List.mem_singleton.mp h with rfl
      exact List.infix_refl x
    | cons z t2 =>
      rcases List.mem_cons.mp h with rfl | h2
      · refine List.IsPrefix.isInfix ?_
        have he : joinSep sep (x :: z :: t2) = x ++ (sep ++ joinSep sep (z :: t2)) := by
          simp [joinSep, List.append_assoc]
        rw [he]
        exact List.prefix_append _ _
      · exact (ih h2).trans ⟨y ++ sep, [], by simp [joinSep]⟩

theorem containsSub_of_infix [DecidableEq α] (n hay : List α) (h : n <:+: hay) :
    containsSub n hay = true := by
  induction hay with
  | nil =>
    rw [List.eq_nil_of_infix_nil h]
    rfl
  | cons a t ih =>
    rcases List.infix_cons_iff.mp h with hp | hi
    · simp only [containsSub, Bool.or_eq_true]
      exact Or.inl (List.isPrefixOf_iff_prefix.mpr hp)
    · simp only [containsSub, Bool.or_eq_true]
      exact Or.inr (ih hi)


/-- Input whose serialisation overflows a small `max_chars`: the preserved
key `"state"` survives both truncation passes but is destroyed by the final
hard cut of the serialised output. -/
def c7entries : List (String × JVal) :=
  [("title", .str (List.replicate 60 'a')), ("state", .str "ok".data)]

/-- **C7** (counterexample).  The claim says every always-preserve key of a
mapping input appears in the output of `truncate(x)`.  For the input
`{"title": "a"*60, "state": "ok"}` with `max_chars = 60`, `"state"` is a
critical key and is kept by both passes of `_truncate_dict`, but the
serialised output still exceeds `max_chars`, so the last-resort hard cut
`output[:max_chars - 50] + '... [truncated for length]"\x7d'` is applied and
the key `"state"` does not appear anywhere in the returned string. -/
theorem truncate_preserved_key_lost_by_hard_cut :
    "state" ∈ allPreserveKeys none ∧
    jlookup c7entries "state" = some (.str "ok".data) ∧
    containsSub (jsonQuote "state".data)
      (truncateToolResult (.obj c7entries) 60 none) = false :=
  ⟨by decide, rfl, by decide⟩

/-- **C7** (amended).  For every mapping input `m`, every key `k` of `m`
in the always-preserve set (other than the reserved `_more_fields` marker)
is kept by the truncation passes: the truncated value is an object whose
entry at `k` is the original value, capped at 500 characters only when it
is a longer string; and whenever the serialised output is within
`max_chars` (so the last-resort hard cut does not fire), the quoted key
appears verbatim in the string returned by `truncate_tool_result`. -/
theorem truncate_preserves_critical_keys
    (m : List (String × JVal)) (v : JVal) (k : String) (mc : Int)
    (pkopt : Option (List String))
    (hk : k ∈ allPreserveKeys pkopt) (hkm : k ≠ "_more_fields")
    (hv : jlookup m k = some v) :
    truncValue 6 (.obj m) mc (allPreserveKeys pkopt) 0 =
      .obj (truncDict (fun w b d => truncValue 5 w b (allPreserveKeys pkopt) d)
        m mc (allPreserveKeys pkopt) 0) ∧
    jlookup (truncDict (fun w b d => truncValue 5 w b (allPreserveKeys pkopt) d)
        m mc (allPreserveKeys pkopt) 0) k = some (cap500 v) ∧
    (((jsonDumps (truncValue 6 (.obj m) mc (allPreserveKeys pkopt) 0)).length : Int) ≤ mc →
      containsSub (jsonQuote k.data) (truncateToolResult (.obj m) mc pkopt) = true) := by
  have h1 : truncValue 6 (.obj m) mc (allPreserveKeys pkopt) 0 =
      .obj (truncDict (fun w b d => truncValue 5 w b (allPreserveKeys pkopt) d)
        m mc (allPreserveKeys pkopt) 0) := rfl
  have h2 : jlookup (truncDict (fun w b d => truncValue 5 w b (allPreserveKeys pkopt) d)
      m mc (allPreserveKeys pkopt) 0) k = some (cap500 v) := by
    simp only [truncDict]
    exact truncDictPass2_lookup_preserved _ 0 m.length k (cap500 v) hkm m _ _
      (truncDictPass1_lookup_mem m k v (allPreserveKeys pkopt) hk hv [] mc)
  refine ⟨h1, h2, fun hfit => ?_⟩
  have hout : truncateToolResult (.obj m) mc pkopt =
      jsonDumps (truncValue 6 (.obj m) mc (allPreserveKeys pkopt) 0) := by
    simp only [truncateToolResult]
    rw [if_neg (not_lt.mpr hfit)]
  rw [hout, h1, jsonDumps_obj]
  apply containsSub_of_infix
  have hmem : (k, cap500 v) ∈
      truncDict (fun w b d => truncValue 5 w b (allPreserveKeys pkopt) d)
        m mc (allPreserveKeys pkopt) 0 := jlookup_mem_of_eq_some _ _ _ h2
  have hent : jsonQuote k.data ++ ": ".data ++ jsonDumps (cap500 v) ∈
      jsonDumpsEntries (truncDict (fun w b d => truncValue 5 w b (allPreserveKeys pkopt) d)
        m mc (allPreserveKeys pkopt) 0) :=
    List.mem_map_of_mem _ hmem
  have hpre : jsonQuote k.data <+:
      (jsonQuote k.data ++ ": ".data ++ jsonDumps (cap500 v)) := by
    rw [List.append_assoc]
    exact List.prefix_append _ _
  have hinf2 := joinSep_infix_of_mem ", ".data _ _ hent
  have hinf3 : joinSep ", ".data (jsonDumpsEntries
        (truncDict (fun w b d => truncValue 5 w b (allPreserveKeys pkopt) d)
          m mc (allPreserveKeys pkopt) 0)) <:+:
      ('\x7b' :: joinSep ", ".data (jsonDumpsEntries
        (truncDict (fun w b d => truncValue 5 w b (allPreserveKeys pkopt) d)
          m mc (allPreserveKeys pkopt) 0)) ++ ['\x7d']) :=
    ⟨['\x7b'], ['\x7d'], by simp⟩
  exact (hpre.isInfix.trans hinf2).trans hinf3

/-- Concrete application of `truncate_preserves_critical_keys`: on the same
input as the counterexample but with a budget of 200 the hard cut does not
fire, and the quoted critical key `"state"` does appear in the output. -/
theorem truncate_preserves_critical_keys_witness :
    ("state" ∈ allPreserveKeys none ∧ "state" ≠ "_more_fields" ∧
      jlookup c7entries "state" = some (.str "ok".data) ∧
      ((jsonDumps (truncValue 6 (.obj c7entries) 200 (allPreserveKeys none) 0)).length : Int) ≤ 200) ∧
    containsSub (jsonQuote "state".data)
      (truncateToolResult (.obj c7entries) 200 none) = true :=
  ⟨⟨by decide, by decide, rfl, by decide⟩,
   (truncate_preserves_critical_keys c7entries (.str "ok".data) "state" 200 none
      (by decide) (by decide) rfl).2.2 (by decide)⟩

/-- A nine-element list of small objects: truncation wraps it into an
`items`/`total_count`/`showing` object. -/
def c9x : JVal := .arr (List.replicate 9 (.obj [("x", .int 0)]))

/-- The parsed form of `truncate_tool_result`'s output on `c9x`. -/
def c9w : JVal :=
  .obj [("items", .arr (List.replicate 8 (.obj [("x", .int 0)]))),
        ("total_count", .int 9), ("showing", .int 8)]

/-- **C9** (counterexample).  The claim says a second truncation produces
output no larger than the first.  The first truncation of `c9x` returns
exactly the serialisation of the wrapper object `c9w` (so the second call,
which parses its string input, truncates `c9w`); re-truncating `c9w` sends
the wrapped items through `_truncate_dict` one level deeper with an
item budget of `(500 - 100) // 8 = 50 <= 200`, which collapses each
`\x7b"x": 0\x7d` into the longer `\x7b"_more_fields": 1\x7d`, and the
second output is strictly longer than the first. -/
theorem truncate_reapplication_grows_counterexample :
    truncateToolResult c9x 2000 none = jsonDumps c9w ∧
    (jsonDumps c9w).length < (truncateToolResult c9w 2000 none).length :=
  ⟨by decide, by decide⟩

/-- **C9** (amended).  Re-truncation can enlarge the output (see the
counterexample), but the returned string itself always fits the budget:
for every input and every `max_chars >= 50`, the string returned by
`truncate_tool_result` has at most `max_chars` characters — the soft path
by the branch condition, the hard-cut path because the slice keeps
`max_chars - 50` characters and appends a 28-character marker. -/
theorem truncate_output_within_max_chars (x : JVal) (mc : Int)
    (pk : Option (List String)) (h50 : 50 ≤ mc) :
    ((truncateToolResult x mc pk).length : Int) ≤ mc := by
  simp only [truncateToolResult]
  split
  · next hgt =>
    have h0 : (0 : Int) ≤ mc - 50 := by linarith
    have hsuf : ("... [truncated for length]\"\x7d".data).length = 28 := by decide
    simp only [pySliceTo, if_pos h0, List.length_append, List.length_take, hsuf]
    have hmin := Nat.min_le_left (mc - 50).toNat
      (jsonDumps (truncValue 6 x mc (allPreserveKeys pk) 0)).length
    omega
  · next hle =>
    exact not_lt.mp hle

/-- Concrete application of `truncate_output_within_max_chars`. -/
theorem truncate_output_within_max_chars_witness :
    (50 : Int) ≤ 100 ∧ ((truncateToolResult (.obj c7entries) 100 none).length : Int) ≤ 100 :=
  ⟨by decide, truncate_output_within_max_chars (.obj c7entries) 100 none (by decide)⟩


/-! ## Conversation history management (`optimizations/history.py`) -/

/-- A chat message.  `content` is `none` for a missing or `None` content
field; `tool_call_id` models `message.get("tool_call_id", "")`;
`tool_calls` carries opaque tool-call descriptors — only their presence
and identity matter to the history manager. -/
structure Msg where
  role : String
  content : Option PyStr
  tool_call_id : String
  tool_calls : List String
  deriving DecidableEq

/-- `HistoryConfig`. -/
structure HistoryConfig where
  max_turns : Int
  summarize_after : Int
  max_tool_result_tokens : Int
  preserve_system_prompt : Bool
  deriving DecidableEq

/-- The dataclass defaults of `HistoryConfig`. -/
def defaultHistoryConfig : HistoryConfig := ⟨10, 5, 500, true⟩

/-- `_count_turns`: the number of messages whose role is `user`. -/
def countTurns (h : List Msg) : Nat :=
  (h.filter (fun m => m.role = "user")).length

/-- `_truncate_content`. -/
def truncateContent (content : PyStr) (max_tokens : Int) : PyStr :=
  let max_chars := max_tokens * 4
  if (content.length : Int) ≤ max_chars then content
  else pySliceTo content (max_chars - 20) ++ "... [truncated]".data

/-- The reduced form of a `tool` message (shared by `optimize` and
`_truncate_tool_results`): role and `tool_call_id` are kept and the content
is truncated to `max_tool_result_tokens`. -/
def toolReduced (cfg : HistoryConfig) (m : Msg) : Msg :=
  ⟨"tool", some (truncateContent (m.content.getD []) cfg.max_tool_result_tokens),
   m.tool_call_id, []⟩

/-- `_truncate_tool_results`. -/
def truncateToolResults (cfg : HistoryConfig) (h : List Msg) : List Msg :=
  h.map (fun m => if m.role = "tool" then toolReduced cfg m else m)

/-- The backward scan of `optimize` locating the `summarize_after`-th user
message counting from the end (the list holds `(index, message)` pairs in
reversed order). -/
def recentStartAux (sa : Int) : List (Nat × Msg) → Int → Option Nat
  | [], _ => none
  | (i, m) :: t, cnt =>
    if m.role = "user" then
      if cnt + 1 = sa then some i else recentStartAux sa t (cnt + 1)
    else recentStartAux sa t cnt

/-- `recent_start_idx` (0 when the scan finds no boundary). -/
def recentStartIdx (sa : Int) (h : List Msg) : Nat :=
  (recentStartAux sa h.enum.reverse 0).getD 0

/-- The topic lines of `_create_summary`. -/
def summaryTopics : List Msg → List PyStr
  | [] => []
  | m :: t =>
    let rest := summaryTopics t
    match m.content with
    | some c =>
      if m.role = "user" && !c.isEmpty then
        (let topic := pyStrip (c.take 100)
         ("User asked: ".data ++ (if 100 < c.length then topic ++ "...".data else topic))) :: rest
      else if m.role = "assistant" && !c.isEmpty && m.tool_calls.isEmpty then
        ("Answered: ".data ++ (c.takeWhile (fun ch => ch ≠ '\n')).take 80) :: rest
      else rest
    | none => rest

/-- `_create_summary`. -/
def createSummary (msgs : List Msg) : PyStr :=
  let topics := summaryTopics msgs
  if topics.isEmpty then "Earlier conversation about STIHL analytics".data
  else joinSep " | ".data (takeLast 3 topics)

/-- Python `list.insert` (an index beyond the end appends). -/
def insertAt : Nat → α → List α → List α
  | 0, a, l => a :: l
  | _ + 1, a, [] => [a]
  | n + 1, a, x :: t => x :: insertAt n a t

/-- The per-message step of `optimize`'s processing loop: system messages
are always kept, messages before the recent boundary are set aside for the
summary, recent tool messages are reduced, and every other recent message
is copied verbatim. -/
def optimizeKeep (cfg : HistoryConfig) (r : Nat) (im : Nat × Msg) : Option Msg :=
  if im.2.role = "system" then some im.2
  else if im.1 < r then none
  else if im.2.role = "tool" then some (toolReduced cfg im.2)
  else some im.2

/-- The messages set aside for summarisation: non-system messages strictly
before the recent boundary. -/
def summarizedPart (cfg : HistoryConfig) (h : List Msg) : List Msg :=
  (h.enum.filter (fun im =>
    !(im.2.role = "system") && decide (im.1 < recentStartIdx cfg.summarize_after h))).map
    (fun im => im.2)

/-- The processed message list before the summary is inserted. -/
def optimizedCore (cfg : HistoryConfig) (h : List Msg) : List Msg :=
  h.enum.filterMap (optimizeKeep cfg (recentStartIdx cfg.summarize_after h))

/-- The synthetic summary message. -/
def summaryMsg (cfg : HistoryConfig) (h : List Msg) : Msg :=
  ⟨"assistant",
   some ("[Previous conversation summary: ".data ++
     createSummary (summarizedPart cfg h) ++ "]".data),
   "", []⟩

/-- Insertion index for the summary: after a leading system message. -/
def summaryIdx (l : List Msg) : Nat :=
  match l with
  | m :: _ => if m.role = "system" then 1 else 0
  | [] => 0

/-- `optimize`. -/
def historyOptimize (cfg : HistoryConfig) (h : List Msg) : List Msg :=
  if h.isEmpty then h
  else if (countTurns h : Int) ≤ cfg.max_turns then truncateToolResults cfg h
  else if (summarizedPart cfg h).isEmpty then optimizedCore cfg h
  else insertAt (summaryIdx (optimizedCore cfg h)) (summaryMsg cfg h)
    (optimizedCore cfg h)

theorem mem_insertAt (a b : α) : ∀ (n : Nat) (l : List α), a ∈ l → a ∈ insertAt n b l
  | 0, _, h => List.mem_cons_of_mem b h
  | _ + 1, [], h => absurd h (List.not_mem_nil a)
  | n + 1, x :: t, h => by
    rcases List.mem_cons.mp h with rfl | h2
    · exact List.mem_cons_self _ _
    · exact List.mem_cons_of_mem x (mem_insertAt a b n t h2)

/-- A plain user message. -/
def mkUser (s : PyStr) : Msg := ⟨"user", some s, "", []⟩

/-- A 1000-character user utterance. -/
def c8long : PyStr := List.replicate 1000 'a'

/-- **C8** (counterexample).  The claim says that once user turns exceed
`max_turns`, recent plain user text is shortened to a 200-token cap.  With
`max_turns = 1` and `summarize_after = 1`, the history
`[user "hi", user ("a"*1000)]` exceeds the turn limit and the second
message is recent, yet `optimize` returns it verbatim: the 1000-character
content is neither shortened to `_truncate_content(·, 200)` (795
characters) nor touched at all — the role-specific summarisation lives in
the never-called `_summarize_message`. -/
theorem history_recent_user_not_shortened_counterexample :
    (historyOptimize ⟨1, 1, 500, true⟩ [mkUser "hi".data, mkUser c8long])[1]? =
      some (mkUser c8long) ∧
    c8long ≠ truncateContent c8long 200 ∧ 800 < c8long.length :=
  ⟨by decide, by decide, by decide⟩

/-- **C8** (amended).  When the number of user turns exceeds `max_turns`,
`optimize` copies every recent message (at or after the
`summarize_after`-from-the-end boundary) as follows: a recent `tool`
message is reduced to its role, `tool_call_id` and content truncated at
`max_tool_result_tokens`; every other recent non-system message is copied
verbatim, with no role-specific shortening (`_summarize_message`, which
would apply the 200/300-token caps, is never invoked by `optimize`). -/
theorem history_recent_messages_copied (cfg : HistoryConfig) (h : List Msg)
    (i : Nat) (m : Msg)
    (ht : (cfg.max_turns : Int) < (countTurns h : Int))
    (hi : recentStartIdx cfg.summarize_after h ≤ i)
    (hm : h[i]? = some m) (hs : m.role ≠ "system") :
    (m.role ≠ "tool" → m ∈ historyOptimize cfg h) ∧
    (m.role = "tool" → toolReduced cfg m ∈ historyOptimize cfg h) := by
  have hne : h.isEmpty = false := by
    cases h with
    | nil => simp at hm
    | cons a t => rfl
  have henum : (i, m) ∈ h.enum := List.mem_enum_iff_getElem?.mpr hm
  have hcore : ∀ target : Msg,
      optimizeKeep cfg (recentStartIdx cfg.summarize_after h) (i, m) = some target →
      target ∈ historyOptimize cfg h := by
    intro target hkeep
    have hmemc : target ∈ optimizedCore cfg h :=
      List.mem_filterMap.mpr ⟨(i, m), henum, hkeep⟩
    simp only [historyOptimize, hne, Bool.false_eq_true, if_false,
      if_neg (not_le.mpr ht)]
    by_cases hsum : (summarizedPart cfg h).isEmpty = true
    · rw [if_pos hsum]; exact hmemc
    · rw [if_neg hsum]; exact mem_insertAt _ _ _ _ hmemc
  constructor
  · intro hnt
    apply hcore m
    simp only [optimizeKeep, if_neg hs, if_neg (not_lt.mpr hi), if_neg hnt]
  · intro htool
    apply hcore (toolReduced cfg m)
    simp only [optimizeKeep, if_neg hs, if_neg (not_lt.mpr hi), if_pos htool]

/-- Concrete application of `history_recent_messages_copied`: the
1000-character recent user message of the counterexample history is
returned verbatim. -/
theorem history_recent_messages_copied_witness :
    ((1 : Int) < (countTurns [mkUser "hi".data, mkUser c8long] : Int) ∧
      recentStartIdx 1 [mkUser "hi".data, mkUser c8long] ≤ 1 ∧
      [mkUser "hi".data, mkUser c8long][1]? = some (mkUser c8long) ∧
      (mkUser c8long).role ≠ "system" ∧ (mkUser c8long).role ≠ "tool") ∧
    mkUser c8long ∈ historyOptimize ⟨1, 1, 500, true⟩ [mkUser "hi".data, mkUser c8long] :=
  ⟨⟨by decide, by decide, by decide, by decide, by decide⟩,
   (history_recent_messages_copied ⟨1, 1, 500, true⟩ [mkUser "hi".data, mkUser c8long]
      1 (mkUser c8long) (by decide) (by decide) (by decide) (by decide)).1 (by decide)⟩

end StihlAgent
